import Mathlib

/-
Verification development for the estorage core of this repository:
the asset mirror (downloadAssets, uploadRepos, printTree in
packages/estorage/src/main.ts, with the remote client in
packages/estorage/src/estorageClient.ts) and the SPA navigation guard
(disableSpaRouting / restoreSpaRouting in main.ts).
-/

/-- Bytes of a fetched or stored file. -/
abbrev Bytes := List Nat

/-- A node of the local virtual filesystem. Modelled from the spec:
the Virtual Filesystem Adapter is an outside capability consumed as
stat / mkdir / writeFile; a node is a directory or a file, and
existence plus type (plus file content) is the only tracked state. -/
inductive FsEntry where
  | dir : FsEntry
  | file : Bytes → FsEntry
deriving DecidableEq

/-- The local filesystem: an association of absolute paths to nodes,
newest binding first. Modelled from the spec: stat looks a path up,
mkdir and writeFile add a binding at a path. -/
abbrev FS := List (String × FsEntry)

/-- Consumed stat capability: the node at a path, none when absent
(the source sees absence as a thrown stat). -/
def statFs (fs : FS) (p : String) : Option FsEntry :=
  (fs.find? (fun e => e.1 == p)).map (fun e => e.2)

/-- Consumed mkdir / writeFile capability: bind a node at a path
(shadowing any older binding). -/
def fsInsert (fs : FS) (p : String) (e : FsEntry) : FS := (p, e) :: fs

/-- A remote directory entry as returned by listDBDir
(estorageClient.ts: DirEntry is dir with a name, or file with a name
and a sha256). -/
inductive DirEntry where
  | dirE : String → DirEntry
  | fileE : String → String → DirEntry
deriving DecidableEq

/-- Name of a remote directory entry (the source reads assetFile.name
of either variant). -/
def entryName : DirEntry → String
  | DirEntry.dirE n => n
  | DirEntry.fileE n _ => n

/-- Environment of the mirror: the remote store client operations and
an injected success oracle for local writes. listDir stands for
listDBDir and fetchBytes for fetchDBFileBytes (estorageClient.ts); a
non-2xx response or transport failure is an error value. writeOk tells
whether the writeFile at a path succeeds (a filesystem failure is a
thrown error in the source, caught per file). -/
structure Env where
  listDir : String → String → Except Unit (List DirEntry)
  fetchBytes : String → String → Except Unit Bytes
  writeOk : String → Bool

/-- Local directory path of a database: the template literal /db. -/
def dbPath (db : String) : String := "/" ++ db

/-- Local path of an asset: the template literal /db/assets/name. -/
def assetPath (db n : String) : String := "/" ++ db ++ "/assets/" ++ n

/-- Remote path of an asset: the template literal assets/name. -/
def remotePath (n : String) : String := "assets/" ++ n

/-- Observable events of one mirror run, in order: remote listing,
stat, mkdir, fetch, write; the Bool marks success. Failed operations
are logged by the source via console.error, modelled here by the
failed event staying in the trace. -/
inductive Ev where
  | listDirEv : String → Bool → Ev
  | statEv : String → Ev
  | mkdirEv : String → Bool → Ev
  | fetchEv : String → String → Bool → Ev
  | writeEv : String → Bytes → Bool → Ev
deriving DecidableEq

/-- One iteration of the asset loop of downloadAssets (main.ts): stat
the local asset path; when it already exists as a file the entry is
skipped; otherwise (absent, or present as a non-file: the source
throws and the catch branch runs) fetch the bytes and write them,
logging and skipping the entry when the fetch or the write fails. -/
def syncAsset (env : Env) (db : String) (fs : FS) (e : DirEntry) : FS × List Ev :=
  let p := assetPath db (entryName e)
  match statFs fs p with
  | some (FsEntry.file _) => (fs, [Ev.statEv p])
  | _ =>
    match env.fetchBytes db (remotePath (entryName e)) with
    | Except.error _ => (fs, [Ev.statEv p, Ev.fetchEv db (remotePath (entryName e)) false])
    | Except.ok data =>
      if env.writeOk p then
        (fsInsert fs p (FsEntry.file data),
          [Ev.statEv p, Ev.fetchEv db (remotePath (entryName e)) true, Ev.writeEv p data true])
      else
        (fs, [Ev.statEv p, Ev.fetchEv db (remotePath (entryName e)) true, Ev.writeEv p data false])

/-- The asset loop of downloadAssets: sequential iteration over the
listed remote entries, threading the filesystem. -/
def syncAssets (env : Env) (db : String) : FS → List DirEntry → FS × List Ev
  | fs, [] => (fs, [])
  | fs, e :: rest =>
    let r1 := syncAsset env db fs e
    let r2 := syncAssets env db r1.1 rest
    (r2.1, r1.2 ++ r2.2)

/-- The ensure step of downloadAssets: stat the database path; when it
is a directory nothing happens; when the stat throws (absent) or the
type is not dir, the catch branch runs mkdir, which succeeds on an
absent path and fails (logged, execution continues) when the path is
occupied by a file. -/
def ensureDbDir (fs : FS) (db : String) : FS × List Ev :=
  match statFs fs (dbPath db) with
  | some FsEntry.dir => (fs, [Ev.statEv (dbPath db)])
  | none =>
    (fsInsert fs (dbPath db) FsEntry.dir,
      [Ev.statEv (dbPath db), Ev.mkdirEv (dbPath db) true])
  | some (FsEntry.file _) => (fs, [Ev.statEv (dbPath db), Ev.mkdirEv (dbPath db) false])

/-- One database iteration of downloadAssets: list the remote assets
directory (a listing failure is caught and aborts only this database),
ensure the local database directory, then run the asset loop. The
final printTree call of the source only reads the filesystem and
writes to the console, so it does not appear in the state. -/
def syncDb (env : Env) (fs : FS) (db : String) : FS × List Ev :=
  match env.listDir db "assets" with
  | Except.error _ => (fs, [Ev.listDirEv db false])
  | Except.ok entries =>
    let r1 := ensureDbDir fs db
    let r2 := syncAssets env db r1.1 entries
    (r2.1, Ev.listDirEv db true :: (r1.2 ++ r2.2))

/-- Argument shape of downloadAssets: objects carrying a database
name. -/
structure DbRef where
  name : String
deriving DecidableEq

/-- The whole downloadAssets entry point (main.ts): sequential
iteration over the requested databases. -/
def downloadAssets (env : Env) : FS → List DbRef → FS × List Ev
  | fs, [] => (fs, [])
  | fs, dbObj :: rest =>
    let r1 := syncDb env fs dbObj.name
    let r2 := downloadAssets env r1.1 rest
    (r2.1, r1.2 ++ r2.2)

/-- Whether an event is a remote fetch of the given remote path. -/
def isFetchOf (p : String) : Ev → Bool
  | Ev.fetchEv _ q _ => q == p
  | _ => false

/-- Number of remote fetches of a given remote path in a trace. -/
def fetchCount (tr : List Ev) (p : String) : Nat := (tr.filter (isFetchOf p)).length

/-- Concrete bytes used by the end-to-end scenario. -/
def demoBytes : Bytes := [7, 7, 7]

/-- Concrete remote environment of the end-to-end scenario: database
mydb whose assets directory holds one file entry a.png with hash abc;
every local write succeeds. -/
def demoEnv : Env where
  listDir := fun db p =>
    if db == "mydb" && p == "assets" then Except.ok [DirEntry.fileE "a.png" "abc"]
    else Except.error ()
  fetchBytes := fun db p =>
    if db == "mydb" && p == "assets/a.png" then Except.ok demoBytes
    else Except.error ()
  writeOk := fun _ => true

/-- Claim C1: with the remote listing for database mydb returning one
file entry a.png under assets and an empty local filesystem, one
downloadAssets call leaves the mydb path bound to a directory node and
the asset path bound to a file holding exactly the fetched bytes
(after exactly one fetch), and a second downloadAssets call issues
zero fetches for that asset. -/
theorem mirror_end_to_end :
    statFs (downloadAssets demoEnv [] [DbRef.mk "mydb"]).1 "/mydb" = some FsEntry.dir ∧
    statFs (downloadAssets demoEnv [] [DbRef.mk "mydb"]).1 "/mydb/assets/a.png"
      = some (FsEntry.file demoBytes) ∧
    fetchCount (downloadAssets demoEnv [] [DbRef.mk "mydb"]).2 "assets/a.png" = 1 ∧
    fetchCount (downloadAssets demoEnv
      (downloadAssets demoEnv [] [DbRef.mk "mydb"]).1 [DbRef.mk "mydb"]).2 "assets/a.png" = 0 := by
  decide

/-- Appending to a fixed string on the left is injective. -/
theorem str_append_cancel {s a b : String} (h : s ++ a = s ++ b) : a = b := by
  have h2 := congrArg String.data h
  simp only [String.data_append] at h2
  exact String.ext (List.append_cancel_left h2)

/-- Distinct asset names give distinct local asset paths. -/
theorem assetPath_inj {db a b : String} (h : assetPath db a = assetPath db b) : a = b :=
  str_append_cancel h

/-- Distinct asset names give distinct remote paths. -/
theorem remotePath_inj {a b : String} (h : remotePath a = remotePath b) : a = b :=
  str_append_cancel h

/-- A local asset path is never the directory path of the same
database. -/
theorem assetPath_ne_dbPath (db m : String) : assetPath db m ≠ dbPath db := by
  intro h
  have h2 := congrArg String.length h
  have ha : ("/" : String).length = 1 := rfl
  have hb : ("/assets/" : String).length = 8 := rfl
  simp only [assetPath, dbPath, String.length_append, ha, hb] at h2
  omega

/-- Looking up the path just bound finds the new node. -/
theorem statFs_insert_self (fs : FS) (p : String) (e : FsEntry) :
    statFs (fsInsert fs p e) p = some e := by
  simp [statFs, fsInsert, List.find?]

/-- Looking up another path is unaffected by a new binding. -/
theorem statFs_insert_ne (fs : FS) (p q : String) (e : FsEntry) (h : p ≠ q) :
    statFs (fsInsert fs p e) q = statFs fs q := by
  have hb : (p == q) = false := beq_eq_false_iff_ne.mpr h
  simp [statFs, fsInsert, List.find?, hb]

/-- Fetch counting distributes over trace concatenation. -/
theorem fetchCount_append (t1 t2 : List Ev) (q : String) :
    fetchCount (t1 ++ t2) q = fetchCount t1 q + fetchCount t2 q := by
  simp [fetchCount, List.filter_append]

/-- A trace of stat events contains no fetches. -/
theorem fetchCount_statEvs {α : Type} (f : α → String) (l : List α) (q : String) :
    fetchCount (l.map (fun a => Ev.statEv (f a))) q = 0 := by
  induction l with
  | nil => rfl
  | cons a t ih => simp [fetchCount, isFetchOf]

/-- A file node present at any path survives one asset-loop step. -/
theorem syncAsset_stat_file (env : Env) (db : String) (fs : FS) (e : DirEntry)
    (q : String) (d : Bytes) (h : statFs fs q = some (FsEntry.file d)) :
    statFs (syncAsset env db fs e).1 q = some (FsEntry.file d) := by
  by_cases hpq : assetPath db (entryName e) = q
  · cases hst : statFs fs (assetPath db (entryName e)) with
    | none => rw [hpq] at hst; rw [hst] at h; exact absurd h (by simp)
    | some ent =>
      cases ent with
      | dir => rw [hpq] at hst; rw [hst] at h; simp at h
      | file d2 => simp [syncAsset, hst, h]
  · cases hst : statFs fs (assetPath db (entryName e)) with
    | none =>
      cases hfe : env.fetchBytes db (remotePath (entryName e)) with
      | error u => simp [syncAsset, hst, hfe, h]
      | ok b =>
        cases hwe : env.writeOk (assetPath db (entryName e)) with
        | false => simp [syncAsset, hst, hfe, hwe, h]
        | true => simp [syncAsset, hst, hfe, hwe, statFs_insert_ne _ _ _ _ hpq, h]
    | some ent =>
      cases ent with
      | dir =>
        cases hfe : env.fetchBytes db (remotePath (entryName e)) with
        | error u => simp [syncAsset, hst, hfe, h]
        | ok b =>
          cases hwe : env.writeOk (assetPath db (entryName e)) with
          | false => simp [syncAsset, hst, hfe, hwe, h]
          | true => simp [syncAsset, hst, hfe, hwe, statFs_insert_ne _ _ _ _ hpq, h]
      | file d2 => simp [syncAsset, hst, h]

/-- A file node present at any path survives the whole asset loop. -/
theorem syncAssets_stat_file (env : Env) (db : String) (entries : List DirEntry)
    (fs : FS) (q : String) (d : Bytes) (h : statFs fs q = some (FsEntry.file d)) :
    statFs (syncAssets env db fs entries).1 q = some (FsEntry.file d) := by
  induction entries generalizing fs with
  | nil => exact h
  | cons e rest ih =>
    simp only [syncAssets]
    exact ih _ (syncAsset_stat_file env db fs e q d h)

/-- A step on an entry with a different name leaves the stat of the
asset path of the given name unchanged. -/
theorem syncAsset_stat_other (env : Env) (db : String) (fs : FS) (e : DirEntry)
    (q : String) (h : assetPath db (entryName e) ≠ q) :
    statFs (syncAsset env db fs e).1 q = statFs fs q := by
  cases hst : statFs fs (assetPath db (entryName e)) with
  | none =>
    cases hfe : env.fetchBytes db (remotePath (entryName e)) with
    | error u => simp [syncAsset, hst, hfe]
    | ok b =>
      cases hwe : env.writeOk (assetPath db (entryName e)) with
      | false => simp [syncAsset, hst, hfe, hwe]
      | true => simp [syncAsset, hst, hfe, hwe, statFs_insert_ne _ _ _ _ h]
  | some ent =>
    cases ent with
    | dir =>
      cases hfe : env.fetchBytes db (remotePath (entryName e)) with
      | error u => simp [syncAsset, hst, hfe]
      | ok b =>
        cases hwe : env.writeOk (assetPath db (entryName e)) with
        | false => simp [syncAsset, hst, hfe, hwe]
        | true => simp [syncAsset, hst, hfe, hwe, statFs_insert_ne _ _ _ _ h]
    | file d2 => simp [syncAsset, hst]

/-- The asset loop leaves paths outside its asset set unchanged. -/
theorem syncAssets_stat_other (env : Env) (db : String) (entries : List DirEntry)
    (fs : FS) (q : String) (h : ∀ e ∈ entries, assetPath db (entryName e) ≠ q) :
    statFs (syncAssets env db fs entries).1 q = statFs fs q := by
  induction entries generalizing fs with
  | nil => rfl
  | cons e rest ih =>
    simp only [syncAssets]
    rw [ih _ (fun x hx => h x (List.mem_cons_of_mem e hx))]
    exact syncAsset_stat_other env db fs e q (h e (List.mem_cons_self e rest))

/-- With the asset of name n already present as a local file, the
asset loop never fetches and never writes that asset. -/
theorem syncAssets_present_no_fetch (env : Env) (db : String) (entries : List DirEntry)
    (fs : FS) (n : String) (d : Bytes)
    (h : statFs fs (assetPath db n) = some (FsEntry.file d)) :
    fetchCount (syncAssets env db fs entries).2 (remotePath n) = 0 ∧
    (∀ b o, Ev.writeEv (assetPath db n) b o ∉ (syncAssets env db fs entries).2) := by
  induction entries generalizing fs with
  | nil => exact ⟨rfl, by intro b o hmem; simp [syncAssets] at hmem⟩
  | cons e rest ih =>
    have hrest := ih (syncAsset env db fs e).1 (syncAsset_stat_file env db fs e _ d h)
    have hstep : fetchCount (syncAsset env db fs e).2 (remotePath n) = 0 ∧
        (∀ b o, Ev.writeEv (assetPath db n) b o ∉ (syncAsset env db fs e).2) := by
      by_cases hen : entryName e = n
      · rw [← hen] at h ⊢
        simp [syncAsset, h, fetchCount, isFetchOf]
      · have hrp : (remotePath (entryName e) == remotePath n) = false := by
          refine beq_eq_false_iff_ne.mpr ?_
          intro hc
          exact hen (remotePath_inj hc)
        have hap : assetPath db (entryName e) ≠ assetPath db n := by
          intro hc
          exact hen (assetPath_inj hc)
        have hap2 : assetPath db n ≠ assetPath db (entryName e) := Ne.symm hap
        cases hst : statFs fs (assetPath db (entryName e)) with
        | none =>
          cases hfe : env.fetchBytes db (remotePath (entryName e)) with
          | error u => simp [syncAsset, hst, hfe, fetchCount, isFetchOf, hrp]
          | ok b =>
            cases hwe : env.writeOk (assetPath db (entryName e)) with
            | false => simp [syncAsset, hst, hfe, hwe, fetchCount, isFetchOf, hrp, hap, hap2]
            | true => simp [syncAsset, hst, hfe, hwe, fetchCount, isFetchOf, hrp, hap, hap2]
        | some ent =>
          cases ent with
          | dir =>
            cases hfe : env.fetchBytes db (remotePath (entryName e)) with
            | error u => simp [syncAsset, hst, hfe, fetchCount, isFetchOf, hrp]
            | ok b =>
              cases hwe : env.writeOk (assetPath db (entryName e)) with
              | false => simp [syncAsset, hst, hfe, hwe, fetchCount, isFetchOf, hrp, hap, hap2]
              | true => simp [syncAsset, hst, hfe, hwe, fetchCount, isFetchOf, hrp, hap, hap2]
          | file d2 => simp [syncAsset, hst, fetchCount, isFetchOf]
    constructor
    · simp only [syncAssets, fetchCount_append]
      rw [hstep.1, hrest.1]
    · intro b o hmem
      simp only [syncAssets, List.mem_append] at hmem
      cases hmem with
      | inl hx => exact hstep.2 b o hx
      | inr hx => exact hrest.2 b o hx

/-- When every listed asset is already a local file the asset loop is
a pure sequence of stats: nothing is fetched, nothing is written, and
the filesystem is returned unchanged. -/
theorem syncAssets_all_skip (env : Env) (db : String) (entries : List DirEntry)
    (fs : FS)
    (h : ∀ e ∈ entries, ∃ d, statFs fs (assetPath db (entryName e)) = some (FsEntry.file d)) :
    syncAssets env db fs entries
      = (fs, entries.map (fun e => Ev.statEv (assetPath db (entryName e)))) := by
  induction entries generalizing fs with
  | nil => rfl
  | cons e rest ih =>
    obtain ⟨d, hd⟩ := h e (List.mem_cons_self e rest)
    have hstep : syncAsset env db fs e = (fs, [Ev.statEv (assetPath db (entryName e))]) := by
      simp [syncAsset, hd]
    simp only [syncAssets, hstep, List.map_cons]
    rw [ih fs (fun x hx => h x (List.mem_cons_of_mem e hx))]
    rfl

/-- When every fetch succeeds and every write succeeds, the asset loop
ends with every listed asset present as a local file. -/
theorem syncAssets_makes_present (env : Env) (db : String) (entries : List DirEntry)
    (fs : FS)
    (hf : ∀ e ∈ entries, ∃ b, env.fetchBytes db (remotePath (entryName e)) = Except.ok b)
    (hw : ∀ e ∈ entries, env.writeOk (assetPath db (entryName e)) = true) :
    ∀ e ∈ entries, ∃ d,
      statFs (syncAssets env db fs entries).1 (assetPath db (entryName e))
        = some (FsEntry.file d) := by
  induction entries generalizing fs with
  | nil => intro e he; exact absurd he (List.not_mem_nil e)
  | cons e0 rest ih =>
    intro e he
    rcases List.mem_cons.mp he with he0 | hr
    · subst he0
      have hpresent : ∃ d,
          statFs (syncAsset env db fs e).1 (assetPath db (entryName e))
            = some (FsEntry.file d) := by
        cases hst : statFs fs (assetPath db (entryName e)) with
        | none =>
          obtain ⟨b, hb⟩ := hf e (List.mem_cons_self e rest)
          have hwe := hw e (List.mem_cons_self e rest)
          refine ⟨b, ?_⟩
          simp [syncAsset, hst, hb, hwe, statFs_insert_self]
        | some ent =>
          cases ent with
          | dir =>
            obtain ⟨b, hb⟩ := hf e (List.mem_cons_self e rest)
            have hwe := hw e (List.mem_cons_self e rest)
            refine ⟨b, ?_⟩
            simp [syncAsset, hst, hb, hwe, statFs_insert_self]
          | file d2 => exact ⟨d2, by simp [syncAsset, hst]⟩
      obtain ⟨d, hd⟩ := hpresent
      refine ⟨d, ?_⟩
      simp only [syncAssets]
      exact syncAssets_stat_file env db rest _ _ d hd
    · have := ih (syncAsset env db fs e0).1
        (fun x hx => hf x (List.mem_cons_of_mem e0 hx))
        (fun x hx => hw x (List.mem_cons_of_mem e0 hx)) e hr
      obtain ⟨d, hd⟩ := this
      exact ⟨d, by simpa only [syncAssets] using hd⟩

/-- When every fetch and write succeeds and the asset named n is not
yet a local file, the asset loop fetches it exactly once. -/
theorem syncAssets_fetch_once (env : Env) (db : String) (entries : List DirEntry)
    (n : String)
    (hf : ∀ e ∈ entries, ∃ b, env.fetchBytes db (remotePath (entryName e)) = Except.ok b)
    (hw : ∀ e ∈ entries, env.writeOk (assetPath db (entryName e)) = true) :
    ∀ fs : FS, (∀ b, statFs fs (assetPath db n) ≠ some (FsEntry.file b)) →
      n ∈ entries.map entryName →
      fetchCount (syncAssets env db fs entries).2 (remotePath n) = 1 := by
  induction entries with
  | nil => intro fs hn hmem; simp at hmem
  | cons e rest ih =>
    intro fs hn hmem
    by_cases hen : entryName e = n
    · obtain ⟨b, hb⟩ := hf e (List.mem_cons_self e rest)
      have hwe := hw e (List.mem_cons_self e rest)
      have hstep : syncAsset env db fs e
          = (fsInsert fs (assetPath db (entryName e)) (FsEntry.file b),
             [Ev.statEv (assetPath db (entryName e)),
              Ev.fetchEv db (remotePath (entryName e)) true,
              Ev.writeEv (assetPath db (entryName e)) b true]) := by
        cases hst : statFs fs (assetPath db (entryName e)) with
        | none => simp [syncAsset, hst, hb, hwe]
        | some ent =>
          cases ent with
          | dir => simp [syncAsset, hst, hb, hwe]
          | file d => rw [hen] at hst; exact absurd hst (hn d)
      have hpres : statFs (syncAsset env db fs e).1 (assetPath db n)
          = some (FsEntry.file b) := by
        rw [hstep, ← hen]
        exact statFs_insert_self fs _ _
      have hrest := syncAssets_present_no_fetch env db rest (syncAsset env db fs e).1 n b hpres
      have hcnt : fetchCount (syncAsset env db fs e).2 (remotePath n) = 1 := by
        rw [hstep, hen]
        simp [fetchCount, isFetchOf]
      simp only [syncAssets, fetchCount_append]
      rw [hcnt, hrest.1]
    · have hne2 : n ∈ rest.map entryName := by
        simp only [List.map_cons, List.mem_cons] at hmem
        rcases hmem with h1 | h2
        · exact absurd h1.symm hen
        · exact h2
      have hap : assetPath db (entryName e) ≠ assetPath db n :=
        fun hc => hen (assetPath_inj hc)
      have hrp : (remotePath (entryName e) == remotePath n) = false :=
        beq_eq_false_iff_ne.mpr (fun hc => hen (remotePath_inj hc))
      have hn2 : ∀ b2, statFs (syncAsset env db fs e).1 (assetPath db n)
          ≠ some (FsEntry.file b2) := by
        intro b2 hc
        rw [syncAsset_stat_other env db fs e _ hap] at hc
        exact hn b2 hc
      have hcnt0 : fetchCount (syncAsset env db fs e).2 (remotePath n) = 0 := by
        cases hst : statFs fs (assetPath db (entryName e)) with
        | none =>
          cases hfe : env.fetchBytes db (remotePath (entryName e)) with
          | error u => simp [syncAsset, hst, hfe, fetchCount, isFetchOf, hrp]
          | ok b =>
            cases hwe2 : env.writeOk (assetPath db (entryName e)) with
            | false => simp [syncAsset, hst, hfe, hwe2, fetchCount, isFetchOf, hrp]
            | true => simp [syncAsset, hst, hfe, hwe2, fetchCount, isFetchOf, hrp]
        | some ent =>
          cases ent with
          | dir =>
            cases hfe : env.fetchBytes db (remotePath (entryName e)) with
            | error u => simp [syncAsset, hst, hfe, fetchCount, isFetchOf, hrp]
            | ok b =>
              cases hwe2 : env.writeOk (assetPath db (entryName e)) with
              | false => simp [syncAsset, hst, hfe, hwe2, fetchCount, isFetchOf, hrp]
              | true => simp [syncAsset, hst, hfe, hwe2, fetchCount, isFetchOf, hrp]
          | file d => simp [syncAsset, hst, fetchCount, isFetchOf]
      simp only [syncAssets, fetchCount_append]
      rw [hcnt0,
        ih (fun x hx => hf x (List.mem_cons_of_mem e hx))
          (fun x hx => hw x (List.mem_cons_of_mem e hx)) _ hn2 hne2]

/-- The ensure step does not touch asset paths of the same database. -/
theorem ensureDbDir_stat_asset (fs : FS) (db n : String) :
    statFs (ensureDbDir fs db).1 (assetPath db n) = statFs fs (assetPath db n) := by
  cases hst : statFs fs (dbPath db) with
  | none =>
    simp [ensureDbDir, hst,
      statFs_insert_ne fs (dbPath db) (assetPath db n) FsEntry.dir
        (Ne.symm (assetPath_ne_dbPath db n))]
  | some ent =>
    cases ent with
    | dir => simp [ensureDbDir, hst]
    | file d => simp [ensureDbDir, hst]

/-- The trace of the ensure step holds no fetch and no write. -/
theorem ensureDbDir_trace_clean (fs : FS) (db : String) (q : String) :
    fetchCount (ensureDbDir fs db).2 q = 0 ∧
    (∀ p b o, Ev.writeEv p b o ∉ (ensureDbDir fs db).2) := by
  cases hst : statFs fs (dbPath db) with
  | none => simp [ensureDbDir, hst, fetchCount, isFetchOf]
  | some ent =>
    cases ent with
    | dir => simp [ensureDbDir, hst, fetchCount, isFetchOf]
    | file d => simp [ensureDbDir, hst, fetchCount, isFetchOf]

/-- After the ensure step the database path is always occupied. -/
theorem ensureDbDir_dbstat_some (fs : FS) (db : String) :
    ∃ x, statFs (ensureDbDir fs db).1 (dbPath db) = some x := by
  cases hst : statFs fs (dbPath db) with
  | none => exact ⟨FsEntry.dir, by simp [ensureDbDir, hst, statFs_insert_self]⟩
  | some ent =>
    cases ent with
    | dir => exact ⟨FsEntry.dir, by simp [ensureDbDir, hst]⟩
    | file d => exact ⟨FsEntry.file d, by simp [ensureDbDir, hst]⟩

/-- On an occupied database path the ensure step changes nothing. -/
theorem ensureDbDir_of_some (fs : FS) (db : String) (x : FsEntry)
    (h : statFs fs (dbPath db) = some x) : (ensureDbDir fs db).1 = fs := by
  cases x with
  | dir => simp [ensureDbDir, h]
  | file d => simp [ensureDbDir, h]

/-- Claim C2: a locally present asset file is never fetched again and
never rewritten by a later sync; with a reachable remote (every fetch
and write of the listed entries succeeds), an asset absent at the
start is fetched exactly once by the first sync, and a second sync of
the same database fetches nothing, writes nothing, and leaves the
filesystem unchanged. -/
theorem mirror_idempotent (env : Env) (db : String) (entries : List DirEntry)
    (fs0 : FS) (n : String) (d : Bytes)
    (hl : env.listDir db "assets" = Except.ok entries)
    (hf : ∀ e ∈ entries, ∃ b, env.fetchBytes db (remotePath (entryName e)) = Except.ok b)
    (hw : ∀ e ∈ entries, env.writeOk (assetPath db (entryName e)) = true) :
    (statFs fs0 (assetPath db n) = some (FsEntry.file d) →
      fetchCount (syncDb env fs0 db).2 (remotePath n) = 0 ∧
      (∀ b o, Ev.writeEv (assetPath db n) b o ∉ (syncDb env fs0 db).2) ∧
      statFs (syncDb env fs0 db).1 (assetPath db n) = some (FsEntry.file d)) ∧
    ((∀ b, statFs fs0 (assetPath db n) ≠ some (FsEntry.file b)) →
      n ∈ entries.map entryName →
      fetchCount (syncDb env fs0 db).2 (remotePath n) = 1) ∧
    (syncDb env (syncDb env fs0 db).1 db).1 = (syncDb env fs0 db).1 ∧
    (∀ q, fetchCount (syncDb env (syncDb env fs0 db).1 db).2 q = 0) ∧
    (∀ p b o, Ev.writeEv p b o ∉ (syncDb env (syncDb env fs0 db).1 db).2) := by
  have hsync : syncDb env fs0 db
      = ((syncAssets env db (ensureDbDir fs0 db).1 entries).1,
         Ev.listDirEv db true ::
           ((ensureDbDir fs0 db).2
             ++ (syncAssets env db (ensureDbDir fs0 db).1 entries).2)) := by
    simp only [syncDb, hl]
  have hother : ∀ e ∈ entries, assetPath db (entryName e) ≠ dbPath db :=
    fun e _ => assetPath_ne_dbPath db (entryName e)
  obtain ⟨x0, hx0⟩ := ensureDbDir_dbstat_some fs0 db
  have hfs1db : statFs (syncAssets env db (ensureDbDir fs0 db).1 entries).1 (dbPath db)
      = some x0 := by
    rw [syncAssets_stat_other env db entries _ _ hother, hx0]
  have hE1 : (ensureDbDir (syncAssets env db (ensureDbDir fs0 db).1 entries).1 db).1
      = (syncAssets env db (ensureDbDir fs0 db).1 entries).1 :=
    ensureDbDir_of_some _ db x0 hfs1db
  have hpres1 := syncAssets_makes_present env db entries (ensureDbDir fs0 db).1 hf hw
  have hskip2 : syncAssets env db
      (ensureDbDir (syncAssets env db (ensureDbDir fs0 db).1 entries).1 db).1 entries
      = ((syncAssets env db (ensureDbDir fs0 db).1 entries).1,
         entries.map (fun e => Ev.statEv (assetPath db (entryName e)))) := by
    rw [hE1]
    exact syncAssets_all_skip env db entries _ hpres1
  have hsync2 : syncDb env (syncDb env fs0 db).1 db
      = ((syncAssets env db (ensureDbDir fs0 db).1 entries).1,
         Ev.listDirEv db true ::
           ((ensureDbDir (syncAssets env db (ensureDbDir fs0 db).1 entries).1 db).2
             ++ entries.map (fun e => Ev.statEv (assetPath db (entryName e))))) := by
    rw [hsync]
    simp only [syncDb, hl]
    rw [hskip2]
  refine ⟨?_, ?_, ?_, ?_, ?_⟩
  · intro hpre
    have hpreE0 : statFs (ensureDbDir fs0 db).1 (assetPath db n) = some (FsEntry.file d) := by
      rw [ensureDbDir_stat_asset]
      exact hpre
    have hnf := syncAssets_present_no_fetch env db entries (ensureDbDir fs0 db).1 n d hpreE0
    refine ⟨?_, ?_, ?_⟩
    · rw [hsync]
      have h1 : fetchCount (Ev.listDirEv db true ::
          ((ensureDbDir fs0 db).2
            ++ (syncAssets env db (ensureDbDir fs0 db).1 entries).2)) (remotePath n)
          = fetchCount (ensureDbDir fs0 db).2 (remotePath n)
            + fetchCount (syncAssets env db (ensureDbDir fs0 db).1 entries).2 (remotePath n) := by
        simp [fetchCount, isFetchOf, List.filter_append]
      rw [h1, (ensureDbDir_trace_clean fs0 db (remotePath n)).1, hnf.1]
    · intro b o hmem
      rw [hsync] at hmem
      rcases List.mem_cons.mp hmem with h1 | h2
      · exact Ev.noConfusion h1
      rcases List.mem_append.mp h2 with h3 | h4
      · exact (ensureDbDir_trace_clean fs0 db (remotePath n)).2 _ b o h3
      · exact hnf.2 b o h4
    · rw [hsync]
      exact syncAssets_stat_file env db entries _ _ d hpreE0
  · intro hnot hmem
    have hnotE0 : ∀ b, statFs (ensureDbDir fs0 db).1 (assetPath db n)
        ≠ some (FsEntry.file b) := by
      intro b hc
      rw [ensureDbDir_stat_asset] at hc
      exact hnot b hc
    rw [hsync]
    have h1 : fetchCount (Ev.listDirEv db true ::
        ((ensureDbDir fs0 db).2
          ++ (syncAssets env db (ensureDbDir fs0 db).1 entries).2)) (remotePath n)
        = fetchCount (ensureDbDir fs0 db).2 (remotePath n)
          + fetchCount (syncAssets env db (ensureDbDir fs0 db).1 entries).2 (remotePath n) := by
      simp [fetchCount, isFetchOf, List.filter_append]
    rw [h1, (ensureDbDir_trace_clean fs0 db (remotePath n)).1,
      syncAssets_fetch_once env db entries n hf hw _ hnotE0 hmem]
  · rw [hsync2, hsync]
  · intro q
    rw [hsync2]
    have h1 : fetchCount (Ev.listDirEv db true ::
        ((ensureDbDir (syncAssets env db (ensureDbDir fs0 db).1 entries).1 db).2
          ++ entries.map (fun e => Ev.statEv (assetPath db (entryName e))))) q
        = fetchCount
            (ensureDbDir (syncAssets env db (ensureDbDir fs0 db).1 entries).1 db).2 q
          + fetchCount (entries.map (fun e => Ev.statEv (assetPath db (entryName e)))) q := by
      simp [fetchCount, isFetchOf, List.filter_append]
    rw [h1, (ensureDbDir_trace_clean _ db q).1,
      fetchCount_statEvs (fun e => assetPath db (entryName e)) entries q]
  · intro p b o hmem
    rw [hsync2] at hmem
    rcases List.mem_cons.mp hmem with h1 | h2
    · exact Ev.noConfusion h1
    rcases List.mem_append.mp h2 with h3 | h4
    · exact (ensureDbDir_trace_clean _ db p).2 p b o h3
    · obtain ⟨e, _, heq⟩ := List.mem_map.mp h4
      exact Ev.noConfusion heq

/-- Witness for the idempotence claim at the concrete end-to-end
environment: one fetch on the first sync, an unchanged filesystem and
zero fetches on the second. -/
theorem mirror_idempotent_witness :
    fetchCount (syncDb demoEnv [] "mydb").2 (remotePath "a.png") = 1 ∧
    (syncDb demoEnv (syncDb demoEnv [] "mydb").1 "mydb").1 = (syncDb demoEnv [] "mydb").1 ∧
    fetchCount (syncDb demoEnv (syncDb demoEnv [] "mydb").1 "mydb").2 (remotePath "a.png") = 0 := by
  have h := mirror_idempotent demoEnv "mydb" [DirEntry.fileE "a.png" "abc"] [] "a.png" demoBytes
    rfl
    (by
      intro e he
      rw [List.mem_singleton] at he
      subst he
      exact ⟨demoBytes, rfl⟩)
    (by
      intro e he
      rfl)
  exact ⟨h.2.1 (by intro b hc; exact Option.noConfusion hc) (by decide),
    h.2.2.1, h.2.2.2.1 (remotePath "a.png")⟩

/-- Claim C4: when the fetch or the write of one remote entry fails,
that entry is skipped after logging the failed event, the filesystem
is exactly what processing the remaining sibling entries alone
produces, and the trace of the siblings is unchanged. -/
theorem per_file_isolation (env : Env) (db : String) (fs : FS) (e : DirEntry)
    (rest : List DirEntry)
    (hstat : ∀ b, statFs fs (assetPath db (entryName e)) ≠ some (FsEntry.file b))
    (hfail : (∀ b, env.fetchBytes db (remotePath (entryName e)) ≠ Except.ok b)
      ∨ env.writeOk (assetPath db (entryName e)) = false) :
    (syncAssets env db fs (e :: rest)).1 = (syncAssets env db fs rest).1 ∧
    (∃ t, (syncAssets env db fs (e :: rest)).2 = t ++ (syncAssets env db fs rest).2 ∧
      (Ev.fetchEv db (remotePath (entryName e)) false ∈ t ∨
       ∃ b2, Ev.writeEv (assetPath db (entryName e)) b2 false ∈ t)) ∧
    statFs (syncAssets env db fs (e :: rest)).1 (assetPath db (entryName e))
      = statFs (syncAssets env db fs rest).1 (assetPath db (entryName e)) := by
  have hstep : (syncAsset env db fs e).1 = fs ∧
      ((syncAsset env db fs e).2
          = [Ev.statEv (assetPath db (entryName e)),
             Ev.fetchEv db (remotePath (entryName e)) false] ∨
       ∃ b2, (syncAsset env db fs e).2
          = [Ev.statEv (assetPath db (entryName e)),
             Ev.fetchEv db (remotePath (entryName e)) true,
             Ev.writeEv (assetPath db (entryName e)) b2 false]) := by
    cases hst : statFs fs (assetPath db (entryName e)) with
    | none =>
      cases hfe : env.fetchBytes db (remotePath (entryName e)) with
      | error u => exact ⟨by simp [syncAsset, hst, hfe], Or.inl (by simp [syncAsset, hst, hfe])⟩
      | ok b =>
        rcases hfail with hnf | hnw
        · exact absurd hfe (hnf b)
        · exact ⟨by simp [syncAsset, hst, hfe, hnw],
            Or.inr ⟨b, by simp [syncAsset, hst, hfe, hnw]⟩⟩
    | some ent =>
      cases ent with
      | dir =>
        cases hfe : env.fetchBytes db (remotePath (entryName e)) with
        | error u => exact ⟨by simp [syncAsset, hst, hfe], Or.inl (by simp [syncAsset, hst, hfe])⟩
        | ok b =>
          rcases hfail with hnf | hnw
          · exact absurd hfe (hnf b)
          · exact ⟨by simp [syncAsset, hst, hfe, hnw],
              Or.inr ⟨b, by simp [syncAsset, hst, hfe, hnw]⟩⟩
      | file b => exact absurd hst (hstat b)
  have hfs : (syncAssets env db fs (e :: rest)).1 = (syncAssets env db fs rest).1 := by
    simp only [syncAssets, hstep.1]
  refine ⟨hfs, ?_, by rw [hfs]⟩
  refine ⟨(syncAsset env db fs e).2, ?_, ?_⟩
  · simp only [syncAssets, hstep.1]
  · rcases hstep.2 with h | ⟨b2, h⟩
    · rw [h]; exact Or.inl (by simp)
    · rw [h]; exact Or.inr ⟨b2, by simp⟩

/-- Environment where the fetch of a.png fails while b.png succeeds. -/
def failEnv : Env where
  listDir := fun db p =>
    if db == "mydb" && p == "assets"
    then Except.ok [DirEntry.fileE "a.png" "abc", DirEntry.fileE "b.png" "def"]
    else Except.error ()
  fetchBytes := fun _ p => if p == "assets/b.png" then Except.ok demoBytes else Except.error ()
  writeOk := fun _ => true

/-- Witness for the per-file isolation claim: a.png fails to fetch,
b.png is untouched by the failure. -/
theorem per_file_isolation_witness :
    (syncAssets failEnv "mydb" []
        [DirEntry.fileE "a.png" "abc", DirEntry.fileE "b.png" "def"]).1
      = (syncAssets failEnv "mydb" [] [DirEntry.fileE "b.png" "def"]).1 ∧
    (∃ t, (syncAssets failEnv "mydb" []
        [DirEntry.fileE "a.png" "abc", DirEntry.fileE "b.png" "def"]).2
        = t ++ (syncAssets failEnv "mydb" [] [DirEntry.fileE "b.png" "def"]).2 ∧
      (Ev.fetchEv "mydb" (remotePath (entryName (DirEntry.fileE "a.png" "abc"))) false ∈ t ∨
       ∃ b2, Ev.writeEv (assetPath "mydb" (entryName (DirEntry.fileE "a.png" "abc"))) b2 false ∈ t)) ∧
    statFs (syncAssets failEnv "mydb" []
        [DirEntry.fileE "a.png" "abc", DirEntry.fileE "b.png" "def"]).1
        (assetPath "mydb" (entryName (DirEntry.fileE "a.png" "abc")))
      = statFs (syncAssets failEnv "mydb" [] [DirEntry.fileE "b.png" "def"]).1
        (assetPath "mydb" (entryName (DirEntry.fileE "a.png" "abc"))) := by
  refine per_file_isolation failEnv "mydb" [] (DirEntry.fileE "a.png" "abc")
    [DirEntry.fileE "b.png" "def"] ?_ ?_
  · intro b hc
    exact Option.noConfusion hc
  · refine Or.inl ?_
    intro b hc
    have hv : failEnv.fetchBytes "mydb" (remotePath (entryName (DirEntry.fileE "a.png" "abc")))
        = Except.error () := rfl
    rw [hv] at hc
    exact Except.noConfusion hc

/-- Replay of one trace event against a filesystem: a successful mkdir
binds a directory, a successful write binds a file, everything else
changes nothing. -/
def replayEv (fs : FS) : Ev → FS
  | Ev.mkdirEv p true => fsInsert fs p FsEntry.dir
  | Ev.writeEv p b true => fsInsert fs p (FsEntry.file b)
  | _ => fs

/-- Replay of a whole trace: the filesystem as it stands after the
given events. -/
def replay (fs : FS) (tr : List Ev) : FS := tr.foldl replayEv fs

/-- Whether an event is a local write attempt. -/
def isWriteEv : Ev → Bool
  | Ev.writeEv _ _ _ => true
  | _ => false

/-- Formalization of claim C3 as stated: at the moment any asset write
of the database is attempted, the database path holds a directory
node. -/
def dirBeforeWrites (db : String) (fs0 : FS) (tr : List Ev) : Prop :=
  ∀ t1 p b o t2 nm, tr = t1 ++ Ev.writeEv p b o :: t2 → p = assetPath db nm →
    statFs (replay fs0 t1) (dbPath db) = some FsEntry.dir

/-- The ensure step (its stat of the database path) runs before any
asset write of the database is attempted. -/
def ensureBeforeWrites (db : String) (tr : List Ev) : Prop :=
  ∀ t1 p b o t2 nm, tr = t1 ++ Ev.writeEv p b o :: t2 → p = assetPath db nm →
    Ev.statEv (dbPath db) ∈ t1

/-- Replay distributes over trace concatenation. -/
theorem replay_append (fs : FS) (t1 t2 : List Ev) :
    replay fs (t1 ++ t2) = replay (replay fs t1) t2 := by
  simp [replay, List.foldl_append]

/-- A one-event trace allows no split at an event of another shape. -/
theorem split_one (x1 w : Ev) (t1 c2 : List Ev) (h : [x1] = t1 ++ w :: c2)
    (h1 : x1 ≠ w) : False := by
  cases t1 with
  | nil => simp at h; exact h1 h.1
  | cons a t => simp at h

/-- A two-event trace of non-write events allows no split at a write. -/
theorem split_two (x1 x2 w : Ev) (t1 c2 : List Ev) (h : [x1, x2] = t1 ++ w :: c2)
    (h1 : x1 ≠ w) (h2 : x2 ≠ w) : False := by
  cases t1 with
  | nil => simp at h; exact h1 h.1
  | cons a t =>
    cases t with
    | nil => simp at h; exact h2 h.2.1
    | cons a2 t2 => simp at h

/-- In a three-event trace whose first two events differ from w, a
split at w pins the split point to the third position. -/
theorem split_three (x1 x2 x3 w : Ev) (t1 c2 : List Ev)
    (h : [x1, x2, x3] = t1 ++ w :: c2) (h1 : x1 ≠ w) (h2 : x2 ≠ w) :
    t1 = [x1, x2] ∧ x3 = w ∧ c2 = [] := by
  cases t1 with
  | nil => simp at h; exact absurd h.1 h1
  | cons a t =>
    cases t with
    | nil => simp at h; exact absurd h.2.1 h2
    | cons a2 t2 =>
      cases t2 with
      | nil => simp at h; exact ⟨by rw [h.1, h.2.1], h.2.2.1, h.2.2.2⟩
      | cons a3 t3 => simp at h

/-- Exhaustive shape of one asset-loop step: skip, fetch failure,
write failure, or successful fetch and write. -/
theorem syncAsset_cases (env : Env) (db : String) (fs : FS) (e : DirEntry) :
    (∃ d, syncAsset env db fs e = (fs, [Ev.statEv (assetPath db (entryName e))]) ∧
      statFs fs (assetPath db (entryName e)) = some (FsEntry.file d)) ∨
    (syncAsset env db fs e
        = (fs, [Ev.statEv (assetPath db (entryName e)),
                Ev.fetchEv db (remotePath (entryName e)) false])) ∨
    (∃ b, syncAsset env db fs e
        = (fs, [Ev.statEv (assetPath db (entryName e)),
                Ev.fetchEv db (remotePath (entryName e)) true,
                Ev.writeEv (assetPath db (entryName e)) b false])) ∨
    (∃ b, syncAsset env db fs e
        = (fsInsert fs (assetPath db (entryName e)) (FsEntry.file b),
           [Ev.statEv (assetPath db (entryName e)),
            Ev.fetchEv db (remotePath (entryName e)) true,
            Ev.writeEv (assetPath db (entryName e)) b true])) := by
  cases hst : statFs fs (assetPath db (entryName e)) with
  | none =>
    cases hfe : env.fetchBytes db (remotePath (entryName e)) with
    | error u => exact Or.inr (Or.inl (by simp [syncAsset, hst, hfe]))
    | ok b =>
      cases hwe : env.writeOk (assetPath db (entryName e)) with
      | false => exact Or.inr (Or.inr (Or.inl ⟨b, by simp [syncAsset, hst, hfe, hwe]⟩))
      | true => exact Or.inr (Or.inr (Or.inr ⟨b, by simp [syncAsset, hst, hfe, hwe]⟩))
  | some ent =>
    cases ent with
    | dir =>
      cases hfe : env.fetchBytes db (remotePath (entryName e)) with
      | error u => exact Or.inr (Or.inl (by simp [syncAsset, hst, hfe]))
      | ok b =>
        cases hwe : env.writeOk (assetPath db (entryName e)) with
        | false => exact Or.inr (Or.inr (Or.inl ⟨b, by simp [syncAsset, hst, hfe, hwe]⟩))
        | true => exact Or.inr (Or.inr (Or.inr ⟨b, by simp [syncAsset, hst, hfe, hwe]⟩))
    | file d =>
      refine Or.inl ⟨d, ?_, rfl⟩
      simp [syncAsset, hst]

/-- Through the asset loop, a directory node sitting at the database
path at entry is still there at the moment of every write attempt in
the trace. -/
theorem syncAssets_dir_before (env : Env) (db : String) (entries : List DirEntry) :
    ∀ fs : FS, statFs fs (dbPath db) = some FsEntry.dir →
      ∀ t1 p b o t2, (syncAssets env db fs entries).2 = t1 ++ Ev.writeEv p b o :: t2 →
        statFs (replay fs t1) (dbPath db) = some FsEntry.dir := by
  induction entries with
  | nil =>
    intro fs _ t1 p b o t2 heq
    simp [syncAssets] at heq
  | cons e rest ih =>
    intro fs hdir t1 p b o t2 heq
    have hfs1 : statFs (syncAsset env db fs e).1 (dbPath db) = some FsEntry.dir := by
      rw [syncAsset_stat_other env db fs e _ (assetPath_ne_dbPath db (entryName e))]
      exact hdir
    simp only [syncAssets] at heq
    rcases syncAsset_cases env db fs e with ⟨d, hv, _⟩ | hv | ⟨bb, hv⟩ | ⟨bb, hv⟩
    all_goals simp only [hv] at heq hfs1
    · rcases List.append_eq_append_iff.mp heq with ⟨a, ha1, ha2⟩ | ⟨c, hc1, hc2⟩
      · rw [ha1, replay_append]
        exact ih fs hdir a p b o t2 ha2
      · cases c with
        | nil =>
          rw [List.append_nil] at hc1
          rw [← hc1]
          exact hdir
        | cons w2 c2 =>
          injection hc2 with hw2 ht2
          rw [← hw2] at hc1
          exact absurd hc1 (fun hcc => split_one _ _ _ _ hcc (fun hx => Ev.noConfusion hx))
    · rcases List.append_eq_append_iff.mp heq with ⟨a, ha1, ha2⟩ | ⟨c, hc1, hc2⟩
      · rw [ha1, replay_append]
        exact ih fs hdir a p b o t2 ha2
      · cases c with
        | nil =>
          rw [List.append_nil] at hc1
          rw [← hc1]
          exact hdir
        | cons w2 c2 =>
          injection hc2 with hw2 ht2
          rw [← hw2] at hc1
          exact absurd hc1 (fun hcc => split_two _ _ _ _ _ hcc
            (fun hx => Ev.noConfusion hx) (fun hx => Ev.noConfusion hx))
    · rcases List.append_eq_append_iff.mp heq with ⟨a, ha1, ha2⟩ | ⟨c, hc1, hc2⟩
      · rw [ha1, replay_append]
        exact ih fs hdir a p b o t2 ha2
      · cases c with
        | nil =>
          rw [List.append_nil] at hc1
          rw [← hc1]
          exact hdir
        | cons w2 c2 =>
          injection hc2 with hw2 ht2
          rw [← hw2] at hc1
          obtain ⟨ht1, _, _⟩ := split_three _ _ _ _ _ _ hc1
            (fun hx => Ev.noConfusion hx) (fun hx => Ev.noConfusion hx)
          rw [ht1]
          exact hdir
    · rcases List.append_eq_append_iff.mp heq with ⟨a, ha1, ha2⟩ | ⟨c, hc1, hc2⟩
      · rw [ha1, replay_append]
        exact ih _ hfs1 a p b o t2 ha2
      · cases c with
        | nil =>
          rw [List.append_nil] at hc1
          rw [← hc1]
          exact hfs1
        | cons w2 c2 =>
          injection hc2 with hw2 ht2
          rw [← hw2] at hc1
          obtain ⟨ht1, _, _⟩ := split_three _ _ _ _ _ _ hc1
            (fun hx => Ev.noConfusion hx) (fun hx => Ev.noConfusion hx)
          rw [ht1]
          exact hdir

/-- A split at a write event never lands inside a write-free initial segment. -/
theorem noWriteSplit (s r t1 t2 : List Ev) (p : String) (b : Bytes) (o : Bool)
    (hs : ∀ ev ∈ s, isWriteEv ev = false)
    (h : s ++ r = t1 ++ Ev.writeEv p b o :: t2) :
    ∃ a, t1 = s ++ a ∧ r = a ++ Ev.writeEv p b o :: t2 := by
  rcases List.append_eq_append_iff.mp h with ⟨a, ha1, ha2⟩ | ⟨c, hc1, hc2⟩
  · exact ⟨a, ha1, ha2⟩
  · cases c with
    | nil =>
      rw [List.append_nil] at hc1
      refine ⟨[], by rw [hc1, List.append_nil], ?_⟩
      exact hc2.symm
    | cons w2 c2 =>
      injection hc2 with hw2 _
      have hmem : w2 ∈ s := by
        rw [hc1]
        exact List.mem_append_right t1 (List.mem_cons_self w2 c2)
      have hfalse := hs w2 hmem
      rw [← hw2] at hfalse
      exact absurd hfalse (by simp [isWriteEv])

/-- The ensure step never writes a file. -/
theorem ensureDbDir_no_writes (fs : FS) (db : String) :
    ∀ ev ∈ (ensureDbDir fs db).2, isWriteEv ev = false := by
  cases hst : statFs fs (dbPath db) with
  | none => simp [ensureDbDir, hst, isWriteEv]
  | some ent =>
    cases ent with
    | dir => simp [ensureDbDir, hst, isWriteEv]
    | file d => simp [ensureDbDir, hst, isWriteEv]

/-- The trace of the ensure step opens with the stat of the database
path. -/
theorem ensureDbDir_stat_mem (fs : FS) (db : String) :
    Ev.statEv (dbPath db) ∈ (ensureDbDir fs db).2 := by
  cases hst : statFs fs (dbPath db) with
  | none => simp [ensureDbDir, hst]
  | some ent =>
    cases ent with
    | dir => simp [ensureDbDir, hst]
    | file d => simp [ensureDbDir, hst]

/-- Replaying the ensure trace reproduces the ensure result. -/
theorem replay_ensure (fs : FS) (db : String) :
    replay fs (ensureDbDir fs db).2 = (ensureDbDir fs db).1 := by
  cases hst : statFs fs (dbPath db) with
  | none => simp [ensureDbDir, hst, replay, replayEv]
  | some ent =>
    cases ent with
    | dir => simp [ensureDbDir, hst, replay, replayEv]
    | file d => simp [ensureDbDir, hst, replay, replayEv]

/-- When the database path is not occupied by a file, the ensure step
leaves a directory node there. -/
theorem ensureDbDir_makes_dir (fs : FS) (db : String)
    (hnf : ∀ b, statFs fs (dbPath db) ≠ some (FsEntry.file b)) :
    statFs (ensureDbDir fs db).1 (dbPath db) = some FsEntry.dir := by
  cases hst : statFs fs (dbPath db) with
  | none => simp [ensureDbDir, hst, statFs_insert_self]
  | some ent =>
    cases ent with
    | dir => simp [ensureDbDir, hst]
    | file d => exact absurd hst (hnf d)

/-- Claim C3, amended: the ensure step always runs before any asset
write of the synced database, and whenever the database path is not
already occupied by a file node, the directory node is in place at the
moment of every asset write attempt; on a creation failure the loop
continues regardless (best effort). -/
theorem dir_first_amended (env : Env) (fs0 : FS) (db : String) :
    ensureBeforeWrites db (syncDb env fs0 db).2 ∧
    ((∀ b, statFs fs0 (dbPath db) ≠ some (FsEntry.file b)) →
      dirBeforeWrites db fs0 (syncDb env fs0 db).2) := by
  cases hl : env.listDir db "assets" with
  | error u =>
    have hv : (syncDb env fs0 db).2 = [Ev.listDirEv db false] := by simp [syncDb, hl]
    constructor
    · intro t1 p b o t2 nm heq _
      rw [hv] at heq
      exact (split_one _ _ _ _ heq (fun hx => Ev.noConfusion hx)).elim
    · intro _ t1 p b o t2 nm heq _
      rw [hv] at heq
      exact (split_one _ _ _ _ heq (fun hx => Ev.noConfusion hx)).elim
  | ok entries =>
    have hv : (syncDb env fs0 db).2
        = Ev.listDirEv db true ::
            ((ensureDbDir fs0 db).2
              ++ (syncAssets env db (ensureDbDir fs0 db).1 entries).2) := by
      simp only [syncDb, hl]
    have hsplit : ∀ t1 p b o t2, (syncDb env fs0 db).2 = t1 ++ Ev.writeEv p b o :: t2 →
        ∃ a, t1 = Ev.listDirEv db true :: ((ensureDbDir fs0 db).2 ++ a) ∧
          (syncAssets env db (ensureDbDir fs0 db).1 entries).2
            = a ++ Ev.writeEv p b o :: t2 := by
      intro t1 p b o t2 heq
      rw [hv] at heq
      cases t1 with
      | nil => exact Ev.noConfusion (List.head_eq_of_cons_eq heq.symm)
      | cons x t12 =>
        injection heq with h1 h2
        obtain ⟨a, ha1, ha2⟩ := noWriteSplit _ _ _ _ p b o
          (ensureDbDir_no_writes fs0 db) h2
        exact ⟨a, by rw [← h1, ha1], ha2⟩
    constructor
    · intro t1 p b o t2 nm heq _
      obtain ⟨a, ha1, _⟩ := hsplit t1 p b o t2 heq
      rw [ha1]
      exact List.mem_cons_of_mem _ (List.mem_append_left a (ensureDbDir_stat_mem fs0 db))
    · intro hnf t1 p b o t2 nm heq _
      obtain ⟨a, ha1, ha2⟩ := hsplit t1 p b o t2 heq
      rw [ha1]
      have h3 : replay fs0 (Ev.listDirEv db true :: ((ensureDbDir fs0 db).2 ++ a))
          = replay (replay fs0 (ensureDbDir fs0 db).2) a := by
        simp [replay, List.foldl_cons, List.foldl_append, replayEv]
      rw [h3, replay_ensure]
      exact syncAssets_dir_before env db entries _ (ensureDbDir_makes_dir fs0 db hnf)
        a p b o t2 ha2

/-- Local filesystem of the counterexample: the database path is
already occupied by a file node. -/
def cexFs : FS := [("/mydb", FsEntry.file [])]

/-- Counterexample to claim C3 as stated: with the mydb path occupied
by a file, mkdir fails (and is logged), yet the asset write of a.png
is still attempted while no directory node exists at the database
path. -/
theorem dir_first_counterexample :
    ¬ dirBeforeWrites "mydb" cexFs (syncDb demoEnv cexFs "mydb").2 := by
  intro h
  have h2 := h [Ev.listDirEv "mydb" true, Ev.statEv "/mydb", Ev.mkdirEv "/mydb" false,
      Ev.statEv "/mydb/assets/a.png", Ev.fetchEv "mydb" "assets/a.png" true]
    "/mydb/assets/a.png" demoBytes true [] "a.png" (by decide) (by decide)
  exact absurd h2 (by decide)

/-- Witness for the amended claim: on an empty local filesystem the
sync of mydb stats the database path before any write and every write
runs with the directory node in place. -/
theorem dir_first_amended_witness :
    ensureBeforeWrites "mydb" (syncDb demoEnv [] "mydb").2 ∧
    dirBeforeWrites "mydb" [] (syncDb demoEnv [] "mydb").2 :=
  ⟨(dir_first_amended demoEnv [] "mydb").1,
   (dir_first_amended demoEnv [] "mydb").2 (fun _ hc => Option.noConfusion hc)⟩

/-
Navigation guard (the routing kill switch of main.ts). The mutable
browser bindings are modelled as named function values: each history
or window slot holds either the original browser binding or one of the
patched guard routines installed by disableSpaRouting.
-/

/-- A function value sitting in a patchable browser slot. -/
inductive Fn where
  | origPush : Fn
  | origReplace : Fn
  | origBack : Fn
  | origForward : Fn
  | origGo : Fn
  | origAdd : Fn
  | origRemove : Fn
  | origLocAssign : Fn
  | origLocReplace : Fn
  | guardPush : Fn
  | guardReplace : Fn
  | guardBack : Fn
  | guardForward : Fn
  | guardGo : Fn
  | guardAdd : Fn
  | guardRemove : Fn
deriving DecidableEq

/-- Identity of an event listener callback. The two kill-switch
handlers are fresh closures created by disableSpaRouting, distinct
from every application callback. -/
inductive LId where
  | app : Nat → LId
  | killHash : LId
  | killPop : LId
deriving DecidableEq

/-- One listener registration: event type, callback, options (the
capture flag the target keys registrations on). -/
structure Reg where
  type : String
  listener : LId
  options : Bool
deriving DecidableEq

/-- The saved.history record captured by disableSpaRouting. -/
structure HistSaved where
  pushState : Fn
  replaceState : Fn
  back : Fn
  forward : Fn
  go : Fn
deriving DecidableEq

/-- The saved.window record captured by disableSpaRouting. -/
structure WinSaved where
  addEventListener : Fn
  removeEventListener : Fn
  locationAssign : Fn
  locationReplace : Fn
deriving DecidableEq

/-- The saved.killSwitchHandlers record. -/
structure KillHandlers where
  hashchange : Option LId
  popstate : Option LId
deriving DecidableEq

/-- The window[KEY] record of the kill switch. -/
structure Saved where
  enabled : Bool
  history : Option HistSaved
  window : Option WinSaved
  listeners : List Reg
  blockedEvents : List String
  killSwitchHandlers : KillHandlers
deriving DecidableEq

/-- The whole browser state the guard touches: the patchable history
and window slots, the listeners actually installed on the real event
target, and the window[KEY] record (none before first enable). -/
structure WState where
  pushState : Fn
  replaceState : Fn
  back : Fn
  forward : Fn
  go : Fn
  addEventListener : Fn
  removeEventListener : Fn
  locAssign : Fn
  locReplace : Fn
  realListeners : List Reg
  killKey : Option Saved
deriving DecidableEq

/-- Real-target registration, with the DOM rule that an identical
(type, callback, capture) triple is registered at most once. -/
def addReal (l : List Reg) (t : String) (lid : LId) (o : Bool) : List Reg :=
  if Reg.mk t lid o ∈ l then l else l ++ [Reg.mk t lid o]

/-- Real-target removal of a matching (type, callback, capture)
triple. -/
def removeReal (l : List Reg) (t : String) (lid : LId) (o : Bool) : List Reg :=
  l.filter (fun x => !(x.type == t && x.listener == lid && x.options == o))

/-- Application of a stored registration binding. Only the original
addEventListener is ever stored into saved.window by the source
(enable runs only from disabled states); any other stored value would
re-enter the interceptor there and cannot occur in a reachable state,
so it is modelled as having no effect. -/
def applyAddFn (w : WState) (f : Fn) (t : String) (lid : LId) (o : Bool) : WState :=
  match f with
  | Fn.origAdd => { w with realListeners := addReal w.realListeners t lid o }
  | _ => w

/-- Application of a stored removal binding, likewise meaningful only
for the original removeEventListener. -/
def applyRemoveFn (w : WState) (f : Fn) (t : String) (lid : LId) (o : Bool) : WState :=
  match f with
  | Fn.origRemove => { w with realListeners := removeReal w.realListeners t lid o }
  | _ => w

/-- Whether window[KEY] is present and marked enabled (the early-out
test of both entry points). -/
def guardEnabled (w : WState) : Bool :=
  match w.killKey with
  | some s => s.enabled
  | none => false

/-- The empty record created by the expression w[KEY] = w[KEY] or
new-object on the first enable. -/
def emptySaved : Saved where
  enabled := false
  history := none
  window := none
  listeners := []
  blockedEvents := []
  killSwitchHandlers := KillHandlers.mk none none

/-- The enable entry point (window.disableSpaRouting in main.ts): a
no-op while enabled; otherwise capture the current history and window
bindings into window[KEY], keep any previously queued listeners,
record the blocked event set, patch the history and listener slots
with the guard routines, and install the two kill-switch handlers on
the real target through the captured registration binding (hashchange
first, then popstate, both capturing). -/
def enableGuard (w : WState) : WState :=
  if guardEnabled w then w
  else
    let saved0 := w.killKey.getD emptySaved
    let captured : WinSaved :=
      WinSaved.mk w.addEventListener w.removeEventListener w.locAssign w.locReplace
    let saved1 : Saved :=
      { enabled := true
        history := some (HistSaved.mk w.pushState w.replaceState w.back w.forward w.go)
        window := some captured
        listeners := saved0.listeners
        blockedEvents := ["popstate", "hashchange"]
        killSwitchHandlers := KillHandlers.mk (some LId.killHash) (some LId.killPop) }
    let w1 : WState :=
      { w with
        pushState := Fn.guardPush
        replaceState := Fn.guardReplace
        back := Fn.guardBack
        forward := Fn.guardForward
        go := Fn.guardGo
        addEventListener := Fn.guardAdd
        removeEventListener := Fn.guardRemove
        killKey := some saved1 }
    let w2 := applyAddFn w1 captured.addEventListener "hashchange" LId.killHash true
    applyAddFn w2 captured.addEventListener "popstate" LId.killPop true

/-- The disable entry point (window.restoreSpaRouting in main.ts): a
no-op while not enabled; otherwise restore the history and listener
slots from window[KEY], remove the two kill-switch handlers through
the restored removal binding, replay every queued registration in
order through the restored registration binding, clear the queue and
clear the enabled mark. -/
def disableGuard (w : WState) : WState :=
  match w.killKey with
  | none => w
  | some saved =>
    if saved.enabled = false then w
    else
      let w1 : WState :=
        match saved.history with
        | some h =>
          { w with
            pushState := h.pushState
            replaceState := h.replaceState
            back := h.back
            forward := h.forward
            go := h.go }
        | none => w
      let w2 : WState :=
        match saved.window with
        | some win =>
          { w1 with
            addEventListener := win.addEventListener
            removeEventListener := win.removeEventListener }
        | none => w1
      let rem := (saved.window.map WinSaved.removeEventListener).getD Fn.origRemove
      let addF := (saved.window.map WinSaved.addEventListener).getD Fn.origAdd
      let w3 : WState :=
        match saved.killSwitchHandlers.hashchange with
        | some hnd => applyRemoveFn w2 rem "hashchange" hnd true
        | none => w2
      let w4 : WState :=
        match saved.killSwitchHandlers.popstate with
        | some hnd => applyRemoveFn w3 rem "popstate" hnd true
        | none => w3
      let w5 := saved.listeners.foldl
        (fun acc q => applyAddFn acc addF q.type q.listener q.options) w4
      { w5 with killKey := some { saved with listeners := [], enabled := false } }

/-- An application call to window.addEventListener: dispatch on the
binding currently sitting in the slot. While the guard routine is
installed, registrations of blocked types are queued on window[KEY]
and swallowed; other types pass through the captured binding. -/
def stepAdd (w : WState) (t : String) (lid : LId) (o : Bool) : WState :=
  match w.addEventListener with
  | Fn.guardAdd =>
    match w.killKey with
    | some saved =>
      if t ∈ saved.blockedEvents then
        { w with killKey := some { saved with listeners := saved.listeners ++ [Reg.mk t lid o] } }
      else
        applyAddFn w ((saved.window.map WinSaved.addEventListener).getD Fn.origAdd) t lid o
    | none => w
  | f => applyAddFn w f t lid o

/-- An application call to window.removeEventListener: while the
guard routine is installed, removals of blocked types only filter the
queue (matching on type and callback, ignoring options, as the source
filter does); other types pass through the captured binding. -/
def stepRemove (w : WState) (t : String) (lid : LId) (o : Bool) : WState :=
  match w.removeEventListener with
  | Fn.guardRemove =>
    match w.killKey with
    | some saved =>
      if t ∈ saved.blockedEvents then
        { w with killKey := some { saved with
          listeners := saved.listeners.filter
            (fun x => !(x.type == t && x.listener == lid)) } }
      else
        applyRemoveFn w ((saved.window.map WinSaved.removeEventListener).getD Fn.origRemove) t lid o
    | none => w
  | f => applyRemoveFn w f t lid o

/-- The seven patchable bindings of the state, bundled. -/
def slotsOf (w : WState) : Fn × Fn × Fn × Fn × Fn × Fn × Fn :=
  (w.pushState, w.replaceState, w.back, w.forward, w.go,
   w.addEventListener, w.removeEventListener)

/-- Applying a stored registration binding never touches the slots. -/
theorem applyAddFn_slots (w : WState) (f : Fn) (t : String) (lid : LId) (o : Bool) :
    slotsOf (applyAddFn w f t lid o) = slotsOf w := by
  cases f <;> rfl

/-- Applying a stored registration binding never touches window[KEY]. -/
theorem applyAddFn_killKey (w : WState) (f : Fn) (t : String) (lid : LId) (o : Bool) :
    (applyAddFn w f t lid o).killKey = w.killKey := by
  cases f <;> rfl

/-- Applying a stored removal binding never touches the slots. -/
theorem applyRemoveFn_slots (w : WState) (f : Fn) (t : String) (lid : LId) (o : Bool) :
    slotsOf (applyRemoveFn w f t lid o) = slotsOf w := by
  cases f <;> rfl

/-- Replaying a queue of registrations never touches the slots. -/
theorem foldAdd_slots (l : List Reg) (f : Fn) :
    ∀ acc : WState,
      slotsOf (l.foldl (fun a q => applyAddFn a f q.type q.listener q.options) acc)
        = slotsOf acc := by
  induction l with
  | nil => intro acc; rfl
  | cons q r ih => intro acc; rw [List.foldl_cons, ih, applyAddFn_slots]

/-- The window[KEY] record as enable builds it from a state whose
queued-listener list is q. -/
def enabledSaved (w : WState) (q : List Reg) : Saved where
  enabled := true
  history := some (HistSaved.mk w.pushState w.replaceState w.back w.forward w.go)
  window := some (WinSaved.mk w.addEventListener w.removeEventListener w.locAssign w.locReplace)
  listeners := q
  blockedEvents := ["popstate", "hashchange"]
  killSwitchHandlers := KillHandlers.mk (some LId.killHash) (some LId.killPop)

/-- Shape of enable from a never-enabled state: patch the slots, store
the record, then install the two kill-switch handlers through the
captured registration binding. -/
theorem enableGuard_of_disabled (w : WState) (hwn : w.killKey = none) :
    enableGuard w = applyAddFn (applyAddFn
      { w with
        pushState := Fn.guardPush
        replaceState := Fn.guardReplace
        back := Fn.guardBack
        forward := Fn.guardForward
        go := Fn.guardGo
        addEventListener := Fn.guardAdd
        removeEventListener := Fn.guardRemove
        killKey := some (enabledSaved w []) }
      w.addEventListener "hashchange" LId.killHash true)
      w.addEventListener "popstate" LId.killPop true := by
  have hge : guardEnabled w = false := by simp [guardEnabled, hwn]
  simp [enableGuard, hge, hwn, emptySaved, enabledSaved]

/-- After an enable from a never-enabled state the record is present
and holds the captured bindings with an empty queue. -/
theorem enableGuard_killKey_of_disabled (w : WState) (hwn : w.killKey = none) :
    (enableGuard w).killKey = some (enabledSaved w []) := by
  rw [enableGuard_of_disabled w hwn, applyAddFn_killKey, applyAddFn_killKey]

/-- Setting window[KEY] leaves the slots unchanged. -/
theorem slotsOf_setKillKey (x : WState) (k : Option Saved) :
    slotsOf { x with killKey := k } = slotsOf x := rfl

/-- Disable restores the slots exactly from the stored record,
whatever else sits in the state. -/
theorem disableGuard_slots (wE : WState) (s : Saved) (hs2 : HistSaved) (ws2 : WinSaved)
    (hk : wE.killKey = some s) (hen : s.enabled = true)
    (hh : s.history = some hs2) (hw : s.window = some ws2) :
    slotsOf (disableGuard wE)
      = (hs2.pushState, hs2.replaceState, hs2.back, hs2.forward, hs2.go,
         ws2.addEventListener, ws2.removeEventListener) := by
  rcases hks : s.killSwitchHandlers with ⟨kh, kp⟩
  cases kh with
  | none =>
    cases kp with
    | none =>
      have hv : disableGuard wE
          = { (s.listeners.foldl
                (fun acc q => applyAddFn acc ws2.addEventListener q.type q.listener q.options)
                { wE with
                  pushState := hs2.pushState
                  replaceState := hs2.replaceState
                  back := hs2.back
                  forward := hs2.forward
                  go := hs2.go
                  addEventListener := ws2.addEventListener
                  removeEventListener := ws2.removeEventListener }) with
              killKey := some { s with listeners := [], enabled := false } } := by
        simp [disableGuard, hk, hen, hh, hw, hks]
      rw [hv, slotsOf_setKillKey, foldAdd_slots]
      rfl
    | some hp2 =>
      have hv : disableGuard wE
          = { (s.listeners.foldl
                (fun acc q => applyAddFn acc ws2.addEventListener q.type q.listener q.options)
                (applyRemoveFn
                  { wE with
                    pushState := hs2.pushState
                    replaceState := hs2.replaceState
                    back := hs2.back
                    forward := hs2.forward
                    go := hs2.go
                    addEventListener := ws2.addEventListener
                    removeEventListener := ws2.removeEventListener }
                  ws2.removeEventListener "popstate" hp2 true)) with
              killKey := some { s with listeners := [], enabled := false } } := by
        simp [disableGuard, hk, hen, hh, hw, hks]
      rw [hv, slotsOf_setKillKey, foldAdd_slots, applyRemoveFn_slots]
      rfl
  | some hd =>
    cases kp with
    | none =>
      have hv : disableGuard wE
          = { (s.listeners.foldl
                (fun acc q => applyAddFn acc ws2.addEventListener q.type q.listener q.options)
                (applyRemoveFn
                  { wE with
                    pushState := hs2.pushState
                    replaceState := hs2.replaceState
                    back := hs2.back
                    forward := hs2.forward
                    go := hs2.go
                    addEventListener := ws2.addEventListener
                    removeEventListener := ws2.removeEventListener }
                  ws2.removeEventListener "hashchange" hd true)) with
              killKey := some { s with listeners := [], enabled := false } } := by
        simp [disableGuard, hk, hen, hh, hw, hks]
      rw [hv, slotsOf_setKillKey, foldAdd_slots, applyRemoveFn_slots]
      rfl
    | some hp2 =>
      have hv : disableGuard wE
          = { (s.listeners.foldl
                (fun acc q => applyAddFn acc ws2.addEventListener q.type q.listener q.options)
                (applyRemoveFn
                  (applyRemoveFn
                    { wE with
                      pushState := hs2.pushState
                      replaceState := hs2.replaceState
                      back := hs2.back
                      forward := hs2.forward
                      go := hs2.go
                      addEventListener := ws2.addEventListener
                      removeEventListener := ws2.removeEventListener }
                    ws2.removeEventListener "hashchange" hd true)
                  ws2.removeEventListener "popstate" hp2 true)) with
              killKey := some { s with listeners := [], enabled := false } } := by
        simp [disableGuard, hk, hen, hh, hw, hks]
      rw [hv, slotsOf_setKillKey, foldAdd_slots, applyRemoveFn_slots, applyRemoveFn_slots]
      rfl

/-- Claim C5: enable while enabled and disable while not enabled are
no-ops; a double enable keeps the single record holding the bindings
captured before the first enable; disable restores exactly the
history, addEventListener and removeEventListener bindings that were
in place before the first enable, after one enable and equally after a
repeated enable. -/
theorem guard_idempotent_restore (w wE wD : WState)
    (hwn : w.killKey = none)
    (hE : guardEnabled wE = true) (hD : guardEnabled wD = false) :
    enableGuard wE = wE ∧
    disableGuard wD = wD ∧
    enableGuard (enableGuard w) = enableGuard w ∧
    (enableGuard (enableGuard w)).killKey = some (enabledSaved w []) ∧
    slotsOf (disableGuard (enableGuard w)) = slotsOf w ∧
    slotsOf (disableGuard (enableGuard (enableGuard w))) = slotsOf w := by
  have h1 : ∀ x : WState, guardEnabled x = true → enableGuard x = x := by
    intro x hx
    simp [enableGuard, hx]
  have h2 : disableGuard wD = wD := by
    cases hkD : wD.killKey with
    | none => simp [disableGuard, hkD]
    | some sD =>
      have hsD : sD.enabled = false := by
        rw [guardEnabled, hkD] at hD
        exact hD
      simp [disableGuard, hkD, hsD]
  have hkE : (enableGuard w).killKey = some (enabledSaved w []) :=
    enableGuard_killKey_of_disabled w hwn
  have hEn2 : guardEnabled (enableGuard w) = true := by
    rw [guardEnabled, hkE]
    rfl
  have h3 : enableGuard (enableGuard w) = enableGuard w := h1 _ hEn2
  have h5 : slotsOf (disableGuard (enableGuard w)) = slotsOf w :=
    disableGuard_slots (enableGuard w) (enabledSaved w [])
      (HistSaved.mk w.pushState w.replaceState w.back w.forward w.go)
      (WinSaved.mk w.addEventListener w.removeEventListener w.locAssign w.locReplace)
      hkE rfl rfl rfl
  exact ⟨h1 wE hE, h2, h3, by rw [h3]; exact hkE, h5, by rw [h3]; exact h5⟩

/-- The pristine browser state: original bindings everywhere, no
window[KEY] record, an empty real target. -/
def w0 : WState where
  pushState := Fn.origPush
  replaceState := Fn.origReplace
  back := Fn.origBack
  forward := Fn.origForward
  go := Fn.origGo
  addEventListener := Fn.origAdd
  removeEventListener := Fn.origRemove
  locAssign := Fn.origLocAssign
  locReplace := Fn.origLocReplace
  realListeners := []
  killKey := none

/-- Witness for the guard idempotence claim at the pristine state. -/
theorem guard_idempotent_restore_witness :
    enableGuard (enableGuard w0) = enableGuard w0 ∧
    slotsOf (disableGuard (enableGuard w0)) = slotsOf w0 ∧
    slotsOf (disableGuard (enableGuard (enableGuard w0))) = slotsOf w0 := by
  have h := guard_idempotent_restore w0 (enableGuard w0) w0 rfl (by decide) (by decide)
  exact ⟨h.2.2.1, h.2.2.2.2.1, h.2.2.2.2.2⟩

/-- The state during an enabled epoch entered from a state w whose
registration bindings were the originals, with queued listeners q. -/
def epochState (w : WState) (q : List Reg) : WState where
  pushState := Fn.guardPush
  replaceState := Fn.guardReplace
  back := Fn.guardBack
  forward := Fn.guardForward
  go := Fn.guardGo
  addEventListener := Fn.guardAdd
  removeEventListener := Fn.guardRemove
  locAssign := w.locAssign
  locReplace := w.locReplace
  realListeners :=
    addReal (addReal w.realListeners "hashchange" LId.killHash true)
      "popstate" LId.killPop true
  killKey := some (enabledSaved w q)

/-- Enable from a never-enabled state with the original registration
binding lands in the epoch state with an empty queue. -/
theorem enableGuard_epoch (w : WState) (hwn : w.killKey = none)
    (ha : w.addEventListener = Fn.origAdd) :
    enableGuard w = epochState w [] := by
  rw [enableGuard_of_disabled w hwn, ha]
  simp [applyAddFn, epochState, enabledSaved, ha]

/-- While in an epoch, registering a listener of a blocked type only
appends it to the queue: the real target is untouched. -/
theorem stepAdd_epoch (w : WState) (q : List Reg) (r : Reg)
    (hr : r.type = "popstate" ∨ r.type = "hashchange") :
    stepAdd (epochState w q) r.type r.listener r.options = epochState w (q ++ [r]) := by
  have hb : r.type ∈ (enabledSaved w q).blockedEvents := by
    rcases hr with h | h <;> simp [enabledSaved, h]
  simp [stepAdd, epochState, hb, enabledSaved]
  intro hnp hnh
  rcases hr with h | h
  · exact absurd h hnp
  · exact absurd h hnh

/-- Registering a whole sequence of blocked-type listeners appends
them to the queue in registration order. -/
theorem foldSteps_epoch (w : WState) (regs : List Reg)
    (hr : ∀ r ∈ regs, r.type = "popstate" ∨ r.type = "hashchange") :
    ∀ q : List Reg,
      regs.foldl (fun s r => stepAdd s r.type r.listener r.options) (epochState w q)
        = epochState w (q ++ regs) := by
  induction regs with
  | nil => intro q; simp
  | cons r rest ih =>
    intro q
    rw [List.foldl_cons, stepAdd_epoch w q r (hr r (List.mem_cons_self r rest)),
      ih (fun x hx => hr x (List.mem_cons_of_mem r hx)) (q ++ [r])]
    simp

/-- Installing a fresh triple appends it to the real target. -/
theorem addReal_not_mem (l : List Reg) (t : String) (lid : LId) (o : Bool)
    (h : Reg.mk t lid o ∉ l) : addReal l t lid o = l ++ [Reg.mk t lid o] := by
  simp [addReal, h]

/-- Removing a triple that is not registered changes nothing. -/
theorem removeReal_not_mem (l : List Reg) (t : String) (lid : LId) (o : Bool)
    (h : Reg.mk t lid o ∉ l) : removeReal l t lid o = l := by
  refine List.filter_eq_self.mpr ?_
  intro x hx
  by_contra hc
  have hx2 : x = Reg.mk t lid o := by
    simp at hc
    rcases x with ⟨xt, xl, xo⟩
    simp at hc ⊢
    rcases hc with ⟨⟨e1, e2⟩, e3⟩
    exact ⟨e1, e2, e3⟩
  rw [hx2] at hx
  exact h hx

/-- Installing and later removing the two kill-switch handlers leaves
a real target that never held them unchanged. -/
theorem kill_install_remove (base : List Reg)
    (h1 : Reg.mk "hashchange" LId.killHash true ∉ base)
    (h2 : Reg.mk "popstate" LId.killPop true ∉ base) :
    removeReal (removeReal
      (addReal (addReal base "hashchange" LId.killHash true) "popstate" LId.killPop true)
      "hashchange" LId.killHash true) "popstate" LId.killPop true = base := by
  rw [addReal_not_mem base _ _ _ h1]
  have h3 : Reg.mk "popstate" LId.killPop true ∉ base ++ [Reg.mk "hashchange" LId.killHash true] := by
    intro hmem
    rcases List.mem_append.mp hmem with hx | hx
    · exact h2 hx
    · simp at hx
  rw [addReal_not_mem _ _ _ _ h3]
  have h4 : removeReal
      ((base ++ [Reg.mk "hashchange" LId.killHash true]) ++ [Reg.mk "popstate" LId.killPop true])
      "hashchange" LId.killHash true
      = base ++ [Reg.mk "popstate" LId.killPop true] := by
    simp only [removeReal, List.filter_append]
    rw [show (base.filter fun x =>
        !(x.type == "hashchange" && x.listener == LId.killHash && x.options == true)) = base from
      removeReal_not_mem base _ _ _ h1]
    simp
  rw [h4]
  simp only [removeReal, List.filter_append]
  rw [show (base.filter fun x =>
      !(x.type == "popstate" && x.listener == LId.killPop && x.options == true)) = base from
    removeReal_not_mem base _ _ _ h2]
  simp

/-- Replaying a queue through the original registration binding is a
pure real-target fold. -/
theorem foldAddFn_origAdd (l : List Reg) :
    ∀ acc : WState,
      l.foldl (fun a r => applyAddFn a Fn.origAdd r.type r.listener r.options) acc
        = { acc with
            realListeners :=
              l.foldl (fun rl r => addReal rl r.type r.listener r.options) acc.realListeners } := by
  induction l with
  | nil => intro acc; rfl
  | cons r rest ih =>
    intro acc
    rw [List.foldl_cons, List.foldl_cons, ih]
    rfl

/-- Disable from an epoch state: the kill-switch handlers leave the
real target, the queue is replayed onto it in order, and the record is
cleared. -/
theorem disableGuard_epoch (w : WState) (q : List Reg)
    (ha : w.addEventListener = Fn.origAdd) (hrm : w.removeEventListener = Fn.origRemove)
    (hk1 : Reg.mk "hashchange" LId.killHash true ∉ w.realListeners)
    (hk2 : Reg.mk "popstate" LId.killPop true ∉ w.realListeners) :
    (disableGuard (epochState w q)).realListeners
      = q.foldl (fun l r => addReal l r.type r.listener r.options) w.realListeners ∧
    (disableGuard (epochState w q)).killKey
      = some { enabledSaved w q with listeners := [], enabled := false } := by
  have hkir := kill_install_remove w.realListeners hk1 hk2
  constructor <;>
    simp [disableGuard, epochState, enabledSaved, ha, hrm, applyRemoveFn,
      foldAddFn_origAdd, hkir]

/-- The queued-listener sequence of the window[KEY] record. -/
def queueOf (w : WState) : List Reg :=
  match w.killKey with
  | some s => s.listeners
  | none => []

/-- Claim C6: every registration of a guarded type made while the
guard is enabled is swallowed (the real target is untouched) and
appended to the queue in registration order; the matching disable
replays the whole queue, in order, through the restored original
registration operation onto the real target, and clears the queue. -/
theorem guard_queue_replay (w : WState) (regs : List Reg)
    (hwn : w.killKey = none) (ha : w.addEventListener = Fn.origAdd)
    (hrm : w.removeEventListener = Fn.origRemove)
    (hk1 : Reg.mk "hashchange" LId.killHash true ∉ w.realListeners)
    (hk2 : Reg.mk "popstate" LId.killPop true ∉ w.realListeners)
    (hr : ∀ r ∈ regs, r.type = "popstate" ∨ r.type = "hashchange") :
    (regs.foldl (fun s r => stepAdd s r.type r.listener r.options)
        (enableGuard w)).realListeners
      = (enableGuard w).realListeners ∧
    queueOf (regs.foldl (fun s r => stepAdd s r.type r.listener r.options)
        (enableGuard w)) = regs ∧
    (disableGuard (regs.foldl (fun s r => stepAdd s r.type r.listener r.options)
        (enableGuard w))).realListeners
      = regs.foldl (fun l r => addReal l r.type r.listener r.options) w.realListeners ∧
    queueOf (disableGuard (regs.foldl (fun s r => stepAdd s r.type r.listener r.options)
        (enableGuard w))) = [] := by
  rw [enableGuard_epoch w hwn ha, foldSteps_epoch w regs hr []]
  have hde := disableGuard_epoch w ([] ++ regs) ha hrm hk1 hk2
  simp only [List.nil_append] at hde
  simp only [List.nil_append]
  refine ⟨rfl, by simp [queueOf, epochState, enabledSaved], ?_, ?_⟩
  · rw [hde.1]
  · simp [queueOf, hde.2]

/-- Witness for the queue-and-replay claim: one popstate registration
made during the epoch, replayed on disable. -/
theorem guard_queue_replay_witness :
    ([Reg.mk "popstate" (LId.app 0) false].foldl
        (fun s r => stepAdd s r.type r.listener r.options) (enableGuard w0)).realListeners
      = (enableGuard w0).realListeners ∧
    queueOf ([Reg.mk "popstate" (LId.app 0) false].foldl
        (fun s r => stepAdd s r.type r.listener r.options) (enableGuard w0))
      = [Reg.mk "popstate" (LId.app 0) false] ∧
    (disableGuard ([Reg.mk "popstate" (LId.app 0) false].foldl
        (fun s r => stepAdd s r.type r.listener r.options) (enableGuard w0))).realListeners
      = [Reg.mk "popstate" (LId.app 0) false].foldl
          (fun l r => addReal l r.type r.listener r.options) w0.realListeners ∧
    queueOf (disableGuard ([Reg.mk "popstate" (LId.app 0) false].foldl
        (fun s r => stepAdd s r.type r.listener r.options) (enableGuard w0))) = [] :=
  guard_queue_replay w0 [Reg.mk "popstate" (LId.app 0) false] rfl rfl rfl
    (by decide) (by decide) (by decide)

/-- A JavaScript value passed as the url argument of hardNavigate.
String coercion of an object value may throw (a Symbol does), which
the error alternative captures. -/
inductive JSVal where
  | undef : JSVal
  | null : JSVal
  | str : String → JSVal
  | num : Int → JSVal
  | obj : Except Unit String → JSVal

/-- The loose test url != null of the source: false exactly on null
and undefined. -/
def jsNeNull : JSVal → Bool
  | JSVal.undef => false
  | JSVal.null => false
  | _ => true

/-- The String(url) coercion. -/
def jsToString : JSVal → Except Unit String
  | JSVal.undef => Except.ok "undefined"
  | JSVal.null => Except.ok "null"
  | JSVal.str s => Except.ok s
  | JSVal.num n => Except.ok (toString n)
  | JSVal.obj r => r

/-- Effect of the hard-navigate routine on the page. -/
inductive NavAction where
  | setHref : String → NavAction
  | reload : NavAction
deriving DecidableEq

/-- Whether assigning location.href at a given url throws. -/
structure NavEnv where
  hrefThrows : String → Bool

/-- hardNavigate (main.ts): inside a try, a non-null url is coerced to
a string; a truthy (non-empty) target sets location.href and a falsy
or absent target reloads; any throw of the coercion or the assignment
is caught and reloads. -/
def hardNavigate (env : NavEnv) (url : JSVal) : NavAction :=
  if jsNeNull url then
    match jsToString url with
    | Except.error _ => NavAction.reload
    | Except.ok s =>
      if s = "" then NavAction.reload
      else if env.hrefThrows s then NavAction.reload
      else NavAction.setHref s
  else NavAction.reload

/-- Navigation environment where assigning location.href never
throws. -/
def noThrowNav : NavEnv where
  hrefThrows := fun _ => false

/-- Counterexample to claim C7 as stated: the empty string is a
present target, its coercion and the navigation do not throw, yet the
routine reloads instead of setting the location to it. -/
theorem hard_navigate_counterexample :
    hardNavigate noThrowNav (JSVal.str "") = NavAction.reload ∧
    hardNavigate noThrowNav (JSVal.str "") ≠ NavAction.setHref "" := by
  exact ⟨rfl, by decide⟩

/-- Claim C7, amended: an absent target (undefined or null) reloads; a
throwing coercion reloads; a present target coercing to a non-empty
string with a non-throwing assignment sets the location to it; a
present target coercing to the empty string, or whose assignment
throws, reloads. -/
theorem hard_navigate_amended (env : NavEnv) (url : JSVal) (s : String) :
    ((url = JSVal.undef ∨ url = JSVal.null) → hardNavigate env url = NavAction.reload) ∧
    (jsToString url = Except.error () → hardNavigate env url = NavAction.reload) ∧
    (url ≠ JSVal.undef → url ≠ JSVal.null → jsToString url = Except.ok s → s ≠ "" →
      env.hrefThrows s = false → hardNavigate env url = NavAction.setHref s) ∧
    (url ≠ JSVal.undef → url ≠ JSVal.null → jsToString url = Except.ok s →
      (s = "" ∨ env.hrefThrows s = true) → hardNavigate env url = NavAction.reload) := by
  refine ⟨?_, ?_, ?_, ?_⟩
  · rintro (h | h) <;> subst h <;> rfl
  · intro herr
    cases hne : jsNeNull url with
    | false => simp [hardNavigate, hne]
    | true => simp [hardNavigate, hne, herr]
  · intro h1 h2 hok hs hth
    have hne : jsNeNull url = true := by
      cases url with
      | undef => exact absurd rfl h1
      | null => exact absurd rfl h2
      | str s2 => rfl
      | num n => rfl
      | obj r => rfl
    simp [hardNavigate, hne, hok, hs, hth]
  · intro h1 h2 hok hor
    have hne : jsNeNull url = true := by
      cases url with
      | undef => exact absurd rfl h1
      | null => exact absurd rfl h2
      | str s2 => rfl
      | num n => rfl
      | obj r => rfl
    rcases hor with hs | hth
    · simp [hardNavigate, hne, hok, hs]
    · cases hse : decide (s = "") with
      | true => simp [hardNavigate, hne, hok, of_decide_eq_true hse]
      | false => simp [hardNavigate, hne, hok, of_decide_eq_false hse, hth]

/-- Witness for the amended hard-navigate claim: a concrete absolute
url is navigated to, undefined reloads. -/
theorem hard_navigate_amended_witness :
    hardNavigate noThrowNav (JSVal.str "https://example.com/x") =
      NavAction.setHref "https://example.com/x" ∧
    hardNavigate noThrowNav JSVal.undef = NavAction.reload := by
  refine ⟨?_, ?_⟩
  · exact (hard_navigate_amended noThrowNav (JSVal.str "https://example.com/x")
      "https://example.com/x").2.2.1 (fun h => JSVal.noConfusion h)
      (fun h => JSVal.noConfusion h) rfl (by decide) rfl
  · exact (hard_navigate_amended noThrowNav JSVal.undef "x").1 (Or.inl rfl)

/-- Claim C10: a present but empty url reloads, exactly as an absent
url does, because the truthiness test on the coerced string selects
the reload branch. -/
theorem hard_navigate_empty (env : NavEnv) :
    hardNavigate env (JSVal.str "") = NavAction.reload ∧
    hardNavigate env (JSVal.str "") = hardNavigate env JSVal.undef := by
  exact ⟨rfl, rfl⟩

/-- Whether four characters match the case-insensitive regex fragment
for a trailing .zip extension (the pattern of the source replace
call). -/
def zipSuffixMatch : List Char → Bool
  | [c1, c2, c3, c4] =>
    c1 == '.' && (c2 == 'z' || c2 == 'Z') && (c3 == 'i' || c3 == 'I')
      && (c4 == 'p' || c4 == 'P')
  | _ => false

/-- file.name.replace with the anchored case-insensitive zip-extension
regex (uploadRepos in main.ts): when the last four characters match,
they are removed; otherwise the name passes through unchanged. -/
def stripZipName (s : String) : String :=
  if zipSuffixMatch (s.data.drop (s.data.length - 4)) then
    String.mk (s.data.take (s.data.length - 4))
  else s

/-- An upload request: input file name and raw bytes. -/
structure UpFile where
  name : String
  bytes : Bytes

/-- The uploadRepos entry point (main.ts): for each input file in
order, upload its bytes under the database name derived by stripping
the zip extension; each upload awaits the previous one. -/
def uploadRepos : List UpFile → List (String × Bytes)
  | [] => []
  | f :: rest => (stripZipName f.name, f.bytes) :: uploadRepos rest

/-- Names stripping a literal lowercase extension. -/
theorem stripZipName_append_zip (s : String) : stripZipName (s ++ ".zip") = s := by
  have hd : (s ++ ".zip").data = s.data ++ ['.', 'z', 'i', 'p'] := by
    rw [String.data_append]
  simp [stripZipName, hd, List.length_append, zipSuffixMatch, List.drop_left, List.take_left]

/-- Claim C8: uploads run strictly sequentially in input order, each
under the name obtained by stripping one trailing zip extension
case-insensitively; in particular graph1.zip uploads as graph1 and
graph2.ZIP as graph2, only one trailing extension is stripped, and a
name without the extension is unchanged. -/
theorem upload_naming_order :
    (∀ files : List UpFile,
      uploadRepos files = files.map (fun f => (stripZipName f.name, f.bytes))) ∧
    (∀ s : String, stripZipName (s ++ ".zip") = s) ∧
    stripZipName "graph1.zip" = "graph1" ∧
    stripZipName "graph2.ZIP" = "graph2" ∧
    stripZipName "a.zip.zip" = "a.zip" ∧
    stripZipName "plain" = "plain" := by
  refine ⟨?_, stripZipName_append_zip, by decide, by decide, by decide, by decide⟩
  intro files
  induction files with
  | nil => rfl
  | cons f rest ih => simp [uploadRepos, ih]

/-- A subtree of the local filesystem as the tree inspector reads it:
readdir of a directory returns the child names in order, stat of a
child gives its type. -/
inductive FTree where
  | file : FTree
  | dir : List (String × FTree) → FTree

/-- Second component of a child entry is smaller than the entry. -/
theorem sizeOf_snd_lt (x : String × FTree) : sizeOf x.2 < sizeOf x := by
  rcases x with ⟨a, b⟩
  simp

mutual

/-- One iteration body of the printTree loop (main.ts): log the
connector line for entry i (the connector chosen by whether i is the
last index), and when the entry is a directory recurse into it with
the extended indentation before the loop continues. -/
def renderEntry (pre : String) (isLast : Bool) (name : String) (t : FTree) : List String :=
  (pre ++ (if isLast then "└── " else "├── ") ++ name) ::
    (match t with
     | FTree.file => []
     | FTree.dir sub => printTreeFrom (pre ++ (if isLast then "    " else "│   ")) sub 0)
termination_by (sizeOf t, 0)

/-- The printTree loop from index i (main.ts): for i from 0 to the
length of the readdir listing, render entry i then continue; the log
output is the concatenation of what the iterations print. -/
def printTreeFrom (pre : String) (cs : List (String × FTree)) (i : Nat) : List String :=
  if h : i < cs.length then
    renderEntry pre (i == cs.length - 1) (cs[i]).1 (cs[i]).2
      ++ printTreeFrom pre cs (i + 1)
  else []
termination_by (sizeOf cs, cs.length - i)
decreasing_by
  · exact Prod.Lex.left _ _ (Nat.lt_of_lt_of_le
      (sizeOf_snd_lt cs[i]) (Nat.le_of_lt (List.sizeOf_lt_of_mem (List.getElem_mem h))))
  · exact Prod.Lex.right _ (by omega)

end

/-- The tree inspector applied to a whole root listing (the source
call printTree(pfs) starting at the root with an empty indentation). -/
def printTree (root : List (String × FTree)) : List String := printTreeFrom "" root 0

/-- Rendering as the spec words it: for each readdir child in listing
order, its connector line (last child marked by the closing
connector), followed immediately by the rendered subtree when the
child is a directory, followed by the later siblings. -/
def treeRenderSpec (pre : String) : List (String × FTree) → List String
  | [] => []
  | (name, t) :: rest =>
    (pre ++ (if rest.isEmpty then "└── " else "├── ") ++ name) ::
      ((match t with
        | FTree.file => []
        | FTree.dir sub =>
          treeRenderSpec (pre ++ (if rest.isEmpty then "    " else "│   ")) sub)
        ++ treeRenderSpec pre rest)
termination_by l => sizeOf l
decreasing_by
  all_goals simp
  all_goals omega

/-- Unfolding of the loop at an index inside the listing. -/
theorem printTreeFrom_pos (pre : String) (cs : List (String × FTree)) (i : Nat)
    (h : i < cs.length) :
    printTreeFrom pre cs i
      = renderEntry pre (i == cs.length - 1) (cs[i]).1 (cs[i]).2
          ++ printTreeFrom pre cs (i + 1) := by
  rw [printTreeFrom]
  rw [dif_pos h]

/-- Unfolding of the loop past the end of the listing. -/
theorem printTreeFrom_neg (pre : String) (cs : List (String × FTree)) (i : Nat)
    (h : ¬ i < cs.length) : printTreeFrom pre cs i = [] := by
  rw [printTreeFrom]
  rw [dif_neg h]

/-- Dropping the head entry shifts the loop index by one. -/
theorem printTreeFrom_shift (c : String × FTree) (cs : List (String × FTree)) (pre : String) :
    ∀ i, printTreeFrom pre (c :: cs) (i + 1) = printTreeFrom pre cs i := by
  have H : ∀ k i, cs.length - i ≤ k →
      printTreeFrom pre (c :: cs) (i + 1) = printTreeFrom pre cs i := by
    intro k
    induction k with
    | zero =>
      intro i hi
      have h1 : ¬ i < cs.length := by omega
      have h2 : ¬ i + 1 < (c :: cs).length := by
        simp only [List.length_cons]
        omega
      rw [printTreeFrom_neg pre _ _ h2, printTreeFrom_neg pre _ _ h1]
    | succ k ih =>
      intro i hi
      by_cases h1 : i < cs.length
      · have h2 : i + 1 < (c :: cs).length := by
          simp only [List.length_cons]
          omega
        rw [printTreeFrom_pos pre _ _ h2, printTreeFrom_pos pre _ _ h1]
        have hLen : (c :: cs).length - 1 = cs.length := by simp
        have hb : ((i + 1 : Nat) == (c :: cs).length - 1) = (i == cs.length - 1) := by
          by_cases hc : i + 1 = cs.length
          · have hc2 : i = cs.length - 1 := by omega
            rw [hLen, hc, hc2]
            simp
          · have hc2 : i ≠ cs.length - 1 := by omega
            rw [hLen, beq_eq_false_iff_ne.mpr hc, beq_eq_false_iff_ne.mpr hc2]
        have hg : ((c :: cs)[i + 1] : String × FTree) = cs[i] := by
          simp [List.getElem_cons_succ]
        rw [hb, hg, ih (i + 1) (by omega)]
      · have h2 : ¬ i + 1 < (c :: cs).length := by
          simp only [List.length_cons]
          omega
        rw [printTreeFrom_neg pre _ _ h2, printTreeFrom_neg pre _ _ h1]
  intro i
  exact H (cs.length - i) i (Nat.le_refl _)

/-- Claim C9: the tree inspector renders a depth-first pre-order
traversal whose line order at every directory equals the readdir
order, with the recursion into each subdirectory placed immediately
after the line of that subdirectory: the index loop of the source
equals the per-child rendering the spec describes, at every subtree
and indentation. -/
theorem print_tree_order :
    (∀ root : List (String × FTree), printTree root = treeRenderSpec "" root) ∧
    (∀ (cs : List (String × FTree)) (pre : String),
      printTreeFrom pre cs 0 = treeRenderSpec pre cs) := by
  have H : ∀ n (cs : List (String × FTree)), sizeOf cs ≤ n → ∀ pre,
      printTreeFrom pre cs 0 = treeRenderSpec pre cs := by
    intro n
    induction n with
    | zero =>
      intro cs hle pre
      cases cs with
      | nil =>
        rw [printTreeFrom_neg pre [] 0 (by simp)]
        simp [treeRenderSpec]
      | cons c rest =>
        exfalso
        simp at hle
    | succ n ihn =>
      intro cs hle pre
      cases cs with
      | nil =>
        rw [printTreeFrom_neg pre [] 0 (by simp)]
        simp [treeRenderSpec]
      | cons c rest =>
        rcases c with ⟨name, t⟩
        have hle2 : sizeOf rest ≤ n ∧ sizeOf t ≤ n := by
          simp at hle
          omega
        have h0 : (0 : Nat) < ((name, t) :: rest).length := by simp
        rw [printTreeFrom_pos pre _ 0 h0, printTreeFrom_shift (name, t) rest pre 0,
          ihn rest hle2.1 pre]
        have hb : ((0 : Nat) == ((name, t) :: rest).length - 1) = rest.isEmpty := by
          cases rest <;> simp
        simp only [List.getElem_cons_zero, hb]
        cases t with
        | file => simp [renderEntry, treeRenderSpec]
        | dir sub =>
          have hsub : sizeOf sub ≤ n := by
            have := hle2.2
            simp at this
            omega
          simp only [renderEntry, treeRenderSpec]
          rw [ihn sub hsub]
          simp
  exact ⟨fun root => H (sizeOf root) root (Nat.le_refl _) "",
    fun cs pre => H (sizeOf cs) cs (Nat.le_refl _) pre⟩
